import Mathlib

/-!
Verification of the SSRN conference-scraper core (src/ssrn_scraper.py).

This file gives a shallow embedding of the extraction-and-reconciliation
engine of the scraper: the regex cascades that recover deadlines and
conference dates from page text, the entry filter, the
discipline/country detectors, and the record merger, together with
theorems settling the specification claims about them.

Python regular expressions are embedded through a small executable
backtracking matcher (`reMat`) over an explicit regex syntax (`RE`);
each pattern of the source is transcribed as an `RE` value.  Python
`re.search` is leftmost-first with ordered alternation and
greedy / lazy quantifiers, which the continuation-passing matcher
reproduces.  Strings are Lean `String`s; Python truthiness of a string
is emptiness; `dict.get` of a possibly-absent key is an `Option`.
-/

/-! ## String helpers (Python-style primitives) -/

/-- Character is an ASCII regex word character (`\w`). -/
def isWordChar (c : Char) : Bool :=
  (c ≥ 'a' && c ≤ 'z') || (c ≥ 'A' && c ≤ 'Z') || (c ≥ '0' && c ≤ '9') || c = '_'

/-- Character is regex whitespace (`\s`). -/
def isSpaceChar (c : Char) : Bool :=
  c = ' ' || c = '\t' || c = '\n' || c = '\r' || c = '\x0b' || c = '\x0c'

/-- Character is an ASCII digit (`\d`). -/
def isDigitChar (c : Char) : Bool :=
  c ≥ '0' && c ≤ '9'

/-- Python `str.strip()` on a character list. -/
def stripChars (l : List Char) : List Char :=
  ((l.dropWhile isSpaceChar).reverse.dropWhile isSpaceChar).reverse

/-- Python `str.strip()`. -/
def pyStrip (s : String) : String := String.mk (stripChars s.data)

/-- Python `str.rstrip(".")`. -/
def pyRstripDot (s : String) : String :=
  String.mk ((s.data.reverse.dropWhile (fun c => c = '.')).reverse)

/-- Python `str.replace(".", "")`. -/
def pyDropDots (s : String) : String :=
  String.mk (s.data.filter (fun c => c ≠ '.'))

/-- Python `str.lower()` (ASCII; list-based so it computes in the
kernel). -/
def pyLower (s : String) : String := String.mk (s.data.map Char.toLower)

/-- Python substring test `needle in haystack` on character lists. -/
def listContains (needle : List Char) : List Char → Bool
  | [] => needle.isEmpty
  | c :: rest => needle.isPrefixOf (c :: rest) || listContains needle rest

/-- Python substring test `p in s`. -/
def strContains (s p : String) : Bool := listContains p.data s.data

/-- Python `int(...)` on a digit string (the only use in the source). -/
def digitsToNat (s : String) : Nat :=
  s.data.foldl (fun a c => a * 10 + (c.toNat - '0'.toNat)) 0

/-- Python `f"{n:02d}"` for the small numbers produced by date parsing. -/
def pad2 (n : Nat) : String :=
  if n < 10 then "0" ++ toString n else toString n

/-- Python `str.endswith("-01")`: the "low-confidence" start-date test. -/
def ends01 (s : String) : Bool :=
  s.data.reverse.take 3 == ['1', '0', '-']

/-- Lexicographic strict order on character lists (Python string `<`,
by code point; written out so it computes in the kernel). -/
def charListLt : List Char → List Char → Bool
  | [], [] => false
  | [], _ :: _ => true
  | _ :: _, [] => false
  | a :: as, b :: bs => if a < b then true else if a = b then charListLt as bs else false

/-- Python string `<`. -/
def strLt (a b : String) : Bool := charListLt a.data b.data

/-- First `some` produced by `f` over a list (Python-style first-match loop). -/
def firstSome {α β : Type} (f : α → Option β) : List α → Option β
  | [] => none
  | a :: l =>
    match f a with
    | some b => some b
    | none => firstSome f l

/-! ## Regex syntax

`RE` covers exactly the constructs appearing in the source patterns:
character classes, sequencing, ordered alternation, bounded / unbounded
greedy and lazy repetition, one level of numbered capture groups, word
boundaries `\b`, and the multiline line-start anchor used via
`(?:^|\n)`. -/

/-- Character classes used by the source patterns. -/
inductive CC where
  | digit : CC
  | word : CC
  | space : CC
  | anyNoNL : CC
  | notCommaNL : CC
  | one : Char → CC
  | colonOrSpace : CC
  | colonOrDash : CC
  | dashes : CC
deriving DecidableEq

/-- Does class `cc` match `c`?  `ci` selects case-insensitive literal
comparison (the `re.IGNORECASE` flag of the source call). -/
def ccMatches (ci : Bool) (cc : CC) (c : Char) : Bool :=
  match cc with
  | CC.digit => isDigitChar c
  | CC.word => isWordChar c
  | CC.space => isSpaceChar c
  | CC.anyNoNL => c ≠ '\n'
  | CC.notCommaNL => c ≠ ',' && c ≠ '\n'
  | CC.one d => if ci then c.toLower = d.toLower else c = d
  | CC.colonOrSpace => c = ':' || isSpaceChar c
  | CC.colonOrDash => c = ':' || c = '-'
  | CC.dashes => c = '-' || c = '–'

/-- Regex abstract syntax. -/
inductive RE where
  | eps : RE
  | cls : CC → RE
  | seq : RE → RE → RE
  | alt : RE → RE → RE
  | rep : RE → Nat → Option Nat → Bool → RE
  | grp : Nat → RE → RE
  | wb : RE
  | bol : RE

/-- Size measure used to compute a fuel bound for the matcher. -/
def reSize : RE → Nat
  | RE.eps => 1
  | RE.cls _ => 1
  | RE.seq a b => reSize a + reSize b + 1
  | RE.alt a b => reSize a + reSize b + 1
  | RE.rep a lo hi _ => (reSize a + 1) * (lo + hi.getD 1 + 2) + 1
  | RE.grp _ a => reSize a + 1
  | RE.wb => 1
  | RE.bol => 1

/-- Is position `i` of `t` a word boundary (`\b`)? -/
def atWB (t : List Char) (i : Nat) : Bool :=
  let w : Option Char → Bool := fun o =>
    match o with
    | some c => isWordChar c
    | none => false
  w (if i = 0 then none else t.get? (i - 1)) != w (t.get? i)

/-- Captured-group records: (group index, start, end) positions. -/
abbrev Caps := List (Nat × Nat × Nat)

/-- Backtracking matcher in continuation-passing style.  `t` is the
subject, `ci` the IGNORECASE flag, the `Nat` is recursion fuel (chosen
large enough by `reSearch` below), `i` the current position, and `k`
the continuation receiving the end position and captures.  Ordered
alternation tries the left branch (with the full continuation) first;
greedy repetition consumes first, lazy repetition yields first —
matching Python `re` backtracking order. -/
def reMat (t : List Char) (ci : Bool) :
    Nat → RE → Nat → Caps → (Nat → Caps → Option (Nat × Caps)) → Option (Nat × Caps)
  | 0, _, _, _, _ => none
  | _ + 1, RE.eps, i, cs, k => k i cs
  | _ + 1, RE.cls cc, i, cs, k =>
    match t.get? i with
    | some c => if ccMatches ci cc c then k (i + 1) cs else none
    | none => none
  | f + 1, RE.seq a b, i, cs, k =>
    reMat t ci f a i cs (fun j cs2 => reMat t ci f b j cs2 k)
  | f + 1, RE.alt a b, i, cs, k =>
    match reMat t ci f a i cs k with
    | some r => some r
    | none => reMat t ci f b i cs k
  | f + 1, RE.rep a lo hi lz, i, cs, k =>
    match lo with
    | m + 1 =>
      reMat t ci f a i cs (fun j cs2 =>
        reMat t ci f (RE.rep a m (hi.map (fun h => h - 1)) lz) j cs2 k)
    | 0 =>
      match hi with
      | some 0 => k i cs
      | _ =>
        if lz then
          match k i cs with
          | some r => some r
          | none =>
            reMat t ci f a i cs (fun j cs2 =>
              reMat t ci f (RE.rep a 0 (hi.map (fun h => h - 1)) lz) j cs2 k)
        else
          match reMat t ci f a i cs (fun j cs2 =>
              reMat t ci f (RE.rep a 0 (hi.map (fun h => h - 1)) lz) j cs2 k) with
          | some r => some r
          | none => k i cs
  | f + 1, RE.grp n a, i, cs, k =>
    reMat t ci f a i cs (fun j cs2 => k j ((n, i, j) :: cs2))
  | _ + 1, RE.wb, i, cs, k => if atWB t i then k i cs else none
  | _ + 1, RE.bol, i, cs, k =>
    if i = 0 || t.get? (i - 1) == some '\n' then k i cs else none

/-- Extract the text of capture group `n` from `t`. -/
def capStr (t : List Char) (cs : Caps) (n : Nat) : Option String :=
  match cs.find? (fun x => x.1 = n) with
  | some (_, s, e) => some (String.mk ((t.drop s).take (e - s)))
  | none => none

/-- Fuel bound for a whole-string search. -/
def fuelFor (t : List Char) (r : RE) : Nat :=
  (t.length + 2) * (reSize r + 2) * 2

/-- `re.search`: try each start position left to right (leftmost match
wins); returns the capture list of the first successful match. -/
def reSearch (ci : Bool) (r : RE) (s : String) : Option Caps :=
  let t := s.data
  firstSome
    (fun i =>
      match reMat t ci (fuelFor t r) r i [] (fun j cs => some (j, cs)) with
      | some (_, cs) => some cs
      | none => none)
    (List.range (t.length + 1))

/-- `re.match`: anchored at the start of the string. -/
def reMatchStart (ci : Bool) (r : RE) (s : String) : Option Caps :=
  let t := s.data
  match reMat t ci (fuelFor t r) r 0 [] (fun j cs => some (j, cs)) with
  | some (_, cs) => some cs
  | none => none

/-- `re.search(...).group(1)` as a string. -/
def searchGroup1 (ci : Bool) (r : RE) (s : String) : Option String :=
  match reSearch ci r s with
  | some cs => capStr s.data cs 1
  | none => none

/-! ## Pattern-building combinators -/

/-- A literal string as a regex (each character as a class). -/
def reLit (s : String) : RE :=
  (s.data.map (fun c => RE.cls (CC.one c))).foldr RE.seq RE.eps

/-- Concatenation of a pattern list. -/
def reCat (l : List RE) : RE := l.foldr RE.seq RE.eps

/-- Ordered alternation of a pattern list. -/
def reAlts : List RE → RE
  | [] => RE.eps
  | [r] => r
  | r :: rs => RE.alt r (reAlts rs)

/-- `r?` (greedy optional). -/
def reOpt (r : RE) : RE := RE.rep r 0 (some 1) false

/-- `r*` (greedy). -/
def reStar (r : RE) : RE := RE.rep r 0 none false

/-- `r+` (greedy). -/
def rePlus (r : RE) : RE := RE.rep r 1 none false

/-- `r{lo,hi}` (greedy). -/
def reN (r : RE) (lo hi : Nat) : RE := RE.rep r lo (some hi) false

/-- `r{lo,hi}?` (lazy). -/
def reLazy (r : RE) (lo hi : Nat) : RE := RE.rep r lo (some hi) true

/-- One literal character. -/
def chr (c : Char) : RE := RE.cls (CC.one c)

/-- `\w` -/
def wd : RE := RE.cls CC.word

/-- `\d` -/
def dg : RE := RE.cls CC.digit

/-- `\s` -/
def sp : RE := RE.cls CC.space

/-- `\w+` -/
def wplus : RE := rePlus wd

/-- `\s+` -/
def splus : RE := rePlus sp

/-- `\s*` -/
def sstar : RE := reStar sp

/-- `\d{1,2}` -/
def d12 : RE := reN dg 1 2

/-- `\d{4}` -/
def d4 : RE := reN dg 4 4

/-- `(?:st|nd|rd|th)?` -/
def ordSuf : RE := reOpt (reAlts [reLit "st", reLit "nd", reLit "rd", reLit "th"])

/-- `,?` -/
def optComma : RE := reOpt (chr ',')

/-- `(?:Monday|Tuesday|Wednesday|Thursday|Friday|Saturday|Sunday)` -/
def dayNames : RE :=
  reAlts [reLit "monday", reLit "tuesday", reLit "wednesday", reLit "thursday",
    reLit "friday", reLit "saturday", reLit "sunday"]

/-- `(?:(?:Monday|...|Sunday),?\s+)?` -/
def dayPre : RE := reOpt (reCat [dayNames, optComma, splus])

/-- `(?:[^,\n]{0,40}?,\s*)?` — the bounded-filler bridge of the source. -/
def filler : RE := reOpt (reCat [reLazy (RE.cls CC.notCommaNL) 0 40, chr ',', sstar])

/-- `(\w+\s+\d{1,2},?\s+\d{4})` -/
def shpMDY : RE := RE.grp 1 (reCat [wplus, splus, d12, optComma, splus, d4])

/-- `(\w+\s+\d{1,2}(?:st|nd|rd|th)?,?\s+\d{4})` -/
def shpMDYo : RE := RE.grp 1 (reCat [wplus, splus, d12, ordSuf, optComma, splus, d4])

/-- `(\d{1,2}(?:st|nd|rd|th)?\s+\w+,?\s+\d{4})` -/
def shpDMY : RE := RE.grp 1 (reCat [d12, ordSuf, splus, wplus, optComma, splus, d4])

/-! ## Date-shape parsing (`parse_date_flexible`, `parse_conf_dates`) -/

/-- `MONTH_MAP` of the source. -/
def MONTH_MAP : List (String × Nat) :=
  [("jan", 1), ("january", 1), ("feb", 2), ("february", 2), ("mar", 3), ("march", 3),
   ("apr", 4), ("april", 4), ("may", 5), ("jun", 6), ("june", 6),
   ("jul", 7), ("july", 7), ("aug", 8), ("august", 8), ("sep", 9), ("september", 9),
   ("oct", 10), ("october", 10), ("nov", 11), ("november", 11), ("dec", 12), ("december", 12)]

/-- `MONTH_MAP.get(key)`. -/
def monthOf (s : String) : Option Nat :=
  firstSome (fun p => if p.1 = s then some p.2 else none) MONTH_MAP

/-- Python `w.lower()[:3]`. -/
def lower3 (s : String) : String := String.mk ((s.data.map Char.toLower).take 3)

/-- Python `w[:3]` (no lowering). -/
def take3 (s : String) : String := String.mk (s.data.take 3)

/-- group `n` of a match over `s`, `""` when absent. -/
def grpD (s : String) (cs : Caps) (n : Nat) : String :=
  (capStr s.data cs n).getD ""

-- r"(\d{4})-(\d{2})-(\d{2})"
def shapeISO : RE :=
  reCat [RE.grp 1 d4, chr '-', RE.grp 2 (reN dg 2 2), chr '-', RE.grp 3 (reN dg 2 2)]

-- r"(\d{1,2})/(\d{1,2})/(\d{4})"
def shapeSlash : RE :=
  reCat [RE.grp 1 d12, chr '/', RE.grp 2 d12, chr '/', RE.grp 3 d4]

-- r"(\w+)\s+(\d{1,2})(?:st|nd|rd|th)?,?\s+(\d{4})"
def shapeMDY3 : RE :=
  reCat [RE.grp 1 wplus, splus, RE.grp 2 d12, ordSuf, optComma, splus, RE.grp 3 d4]

-- r"(\d{1,2})(?:st|nd|rd|th)?\s+(\w+),?\s+(\d{4})"
def shapeDMY3 : RE :=
  reCat [RE.grp 1 d12, ordSuf, splus, RE.grp 2 wplus, optComma, splus, RE.grp 3 d4]

/-- `parse_date_flexible` of the source: normalize a captured date
substring to ISO form, or `none`.  The four anchored shapes are tried
in source order; a shape whose month word is not in `MONTH_MAP` falls
through to the next shape. -/
def parse_date_flexible (text : String) : Option String :=
  if text = "" then none
  else
    let t := pyDropDots (pyRstripDot (pyStrip text))
    match reMatchStart false shapeISO t with
    | some _ => some (String.mk (t.data.take 10))
    | none =>
    match reMatchStart false shapeSlash t with
    | some cs =>
      some (toString (digitsToNat (grpD t cs 3)) ++ "-" ++
        pad2 (digitsToNat (grpD t cs 1)) ++ "-" ++ pad2 (digitsToNat (grpD t cs 2)))
    | none =>
    match reMatchStart false shapeMDY3 t with
    | some cs =>
      match monthOf (lower3 (grpD t cs 1)) with
      | some month =>
        some (toString (digitsToNat (grpD t cs 3)) ++ "-" ++
          pad2 month ++ "-" ++ pad2 (digitsToNat (grpD t cs 2)))
      | none => parseDMYBranch t
    | none => parseDMYBranch t
where
  parseDMYBranch (t : String) : Option String :=
    match reMatchStart false shapeDMY3 t with
    | some cs =>
      match monthOf (lower3 (grpD t cs 2)) with
      | some month =>
        some (toString (digitsToNat (grpD t cs 3)) ++ "-" ++
          pad2 month ++ "-" ++ pad2 (digitsToNat (grpD t cs 1)))
      | none => none
    | none => none

-- r"(\d{1,2})\s+(\w+)\s+(\d{4})\s*-\s*(\d{1,2})\s+(\w+)\s+(\d{4})"
def shapeConfRange : RE :=
  reCat [RE.grp 1 d12, splus, RE.grp 2 wplus, splus, RE.grp 3 d4, sstar, chr '-', sstar,
    RE.grp 4 d12, splus, RE.grp 5 wplus, splus, RE.grp 6 d4]

-- r"(\d{1,2})\s+(\w+)\s+(\d{4})"
def shapeConfSingle : RE :=
  reCat [RE.grp 1 d12, splus, RE.grp 2 wplus, splus, RE.grp 3 d4]

/-- The single-date branch of `parse_conf_dates`. -/
def confSingleBranch (ds : String) : String × String :=
  match reMatchStart false shapeConfSingle ds with
  | some cs =>
    let d1 := digitsToNat (grpD ds cs 1)
    let m1 := grpD ds cs 2
    let y1 := digitsToNat (grpD ds cs 3)
    match monthOf (lower3 m1) with
    | some month1 =>
      (toString y1 ++ "-" ++ pad2 month1 ++ "-" ++ pad2 d1, take3 m1 ++ " " ++ toString d1)
    | none => ("", ds)
  | none => ("", ds)

/-- `parse_conf_dates` of the source: `(startDate, display)`; the
fallback result keeps the stripped original string as display. -/
def parse_conf_dates (date_str : String) : String × String :=
  let ds := pyStrip date_str
  if ds = "" then ("", "")
  else
    match reMatchStart false shapeConfRange ds with
    | some cs =>
      let d1 := digitsToNat (grpD ds cs 1)
      let m1 := grpD ds cs 2
      let y1 := digitsToNat (grpD ds cs 3)
      let d2 := digitsToNat (grpD ds cs 4)
      let m2 := grpD ds cs 5
      match monthOf (lower3 m1), monthOf (lower3 m2) with
      | some month1, some _ =>
        let start := toString y1 ++ "-" ++ pad2 month1 ++ "-" ++ pad2 d1
        let display :=
          if take3 m1 = take3 m2 then
            take3 m1 ++ " " ++ toString d1 ++ "-" ++ toString d2
          else
            take3 m1 ++ " " ++ toString d1 ++ " - " ++ take3 m2 ++ " " ++ toString d2
        (start, display)
      | _, _ => confSingleBranch ds
    | none => confSingleBranch ds

/-! ## The deadline cascade patterns (`DEADLINE_PATTERNS`) -/

/-- `[Dd]eadline[:\s]+` and friends: keyword then `[:\s]+`. -/
def kwColon (s : String) : RE := reCat [reLit s, rePlus (RE.cls CC.colonOrSpace)]

/-- `(\w+\.?\s+\d{1,2}(?:st|nd|rd|th)?,?\s+\d{4})` -/
def shpMDYdot : RE :=
  RE.grp 1 (reCat [wplus, reOpt (chr '.'), splus, d12, ordSuf, optComma, splus, d4])

/-- `.{0,n}?` -/
def lazyAny (n : Nat) : RE := reLazy (RE.cls CC.anyNoNL) 0 n

/-- `DEADLINE_PATTERNS` of the source, in order.  Each element carries
the original pattern in a comment. -/
def DEADLINE_PATTERNS : List RE :=
  [ -- [Ss]ubmission\s+[Dd]eadline[:\s]+(?:[^,\n]{0,40}?,\s*)?(\w+\s+\d{1,2},?\s+\d{4})
   reCat [reLit "submission", splus, kwColon "deadline", filler, shpMDY],
   -- [Ss]ubmission\s+[Dd]eadline[:\s]+(?:[^,\n]{0,40}?,\s*)?(\d{1,2}(?:st|nd|rd|th)?\s+\w+,?\s+\d{4})
   reCat [reLit "submission", splus, kwColon "deadline", filler, shpDMY],
   -- submission\s+deadline\s+is\s+(?:(?:Monday|...|Sunday),?\s+)?(?:[^,\n]{0,40}?,\s*)?(\w+\s+\d{1,2},?\s+\d{4})
   reCat [reLit "submission", splus, reLit "deadline", splus, reLit "is", splus, dayPre, filler, shpMDY],
   -- submission\s+deadline\s+is\s+(?:(?:Monday|...|Sunday),?\s+)?(?:[^,\n]{0,40}?,\s*)?(\d{1,2}(?:st|nd|rd|th)?\s+\w+,?\s+\d{4})
   reCat [reLit "submission", splus, reLit "deadline", splus, reLit "is", splus, dayPre, filler, shpDMY],
   -- [Dd]eadline[:\s]+(?:[^,\n]{0,40}?,\s*)?(\w+\s+\d{1,2},?\s+\d{4})
   reCat [kwColon "deadline", filler, shpMDY],
   -- [Dd]eadline[:\s]+(?:[^,\n]{0,40}?,\s*)?(\d{1,2}(?:st|nd|rd|th)?\s+\w+,?\s+\d{4})
   reCat [kwColon "deadline", filler, shpDMY],
   -- [Dd]eadline[:\s]+(?:[^,\n]{0,40}?,\s*)?(\d{1,2}/\d{1,2}/\d{4})
   reCat [kwColon "deadline", filler, RE.grp 1 (reCat [d12, chr '/', d12, chr '/', d4])],
   -- [Dd]eadline[:\s]+(?:[^,\n]{0,40}?,\s*)?(\d{4}-\d{2}-\d{2})
   reCat [kwColon "deadline", filler,
     RE.grp 1 (reCat [d4, chr '-', reN dg 2 2, chr '-', reN dg 2 2])],
   -- submit\s+(?:papers?|manuscripts?)\s+by\s+(?:[^,\n]{0,40}?,\s*)?(\w+\s+\d{1,2},?\s+\d{4})
   reCat [reLit "submit", splus,
     reAlts [reCat [reLit "paper", reOpt (chr 's')], reCat [reLit "manuscript", reOpt (chr 's')]],
     splus, reLit "by", splus, filler, shpMDY],
   -- submit\s+(?:papers?|manuscripts?)\s+by\s+(?:[^,\n]{0,40}?,\s*)?(\d{1,2}(?:st|nd|rd|th)?\s+\w+,?\s+\d{4})
   reCat [reLit "submit", splus,
     reAlts [reCat [reLit "paper", reOpt (chr 's')], reCat [reLit "manuscript", reOpt (chr 's')]],
     splus, reLit "by", splus, filler, shpDMY],
   -- submitted?\s+by\s+(?:[^,\n]{0,40}?,\s*)?(\w+\s+\d{1,2},?\s+\d{4})
   reCat [reLit "submitte", reOpt (chr 'd'), splus, reLit "by", splus, filler, shpMDY],
   -- submitted?\s+by\s+(?:[^,\n]{0,40}?,\s*)?(\d{1,2}(?:st|nd|rd|th)?\s+\w+,?\s+\d{4})
   reCat [reLit "submitte", reOpt (chr 'd'), splus, reLit "by", splus, filler, shpDMY],
   -- due\s+(?:by|on)\s+(?:[^,\n]{0,40}?,\s*)?(\w+\s+\d{1,2},?\s+\d{4})
   reCat [reLit "due", splus, reAlts [reLit "by", reLit "on"], splus, filler, shpMDY],
   -- due\s+(?:by|on)\s+(?:[^,\n]{0,40}?,\s*)?(\d{1,2}(?:st|nd|rd|th)?\s+\w+,?\s+\d{4})
   reCat [reLit "due", splus, reAlts [reLit "by", reLit "on"], splus, filler, shpDMY],
   -- no\s+later\s+than\s+(?:[^,\n]{0,40}?,\s*)?(\d{1,2}(?:st|nd|rd|th)?\s+\w+,?\s+\d{4})
   reCat [reLit "no", splus, reLit "later", splus, reLit "than", splus, filler, shpDMY],
   -- no\s+later\s+than\s+(?:[^,\n]{0,40}?,\s*)?(\w+\s+\d{1,2},?\s+\d{4})
   reCat [reLit "no", splus, reLit "later", splus, reLit "than", splus, filler, shpMDY],
   -- before\s+(\w+\s+\d{1,2},?\s+\d{4})
   reCat [reLit "before", splus, shpMDY],
   -- before\s+(\d{1,2}(?:st|nd|rd|th)?\s+\w+,?\s+\d{4})
   reCat [reLit "before", splus, shpDMY],
   -- [Dd]eadline\s+for\s+\w+\s+is\s+(?:[^,\n]{0,40}?,\s*)?(\w+\s+\d{1,2}(?:st|nd|rd|th)?,?\s+\d{4})
   reCat [reLit "deadline", splus, reLit "for", splus, wplus, splus, reLit "is", splus, filler, shpMDYo],
   -- [Dd]eadline\s+for\s+\w+\s+is\s+(?:[^,\n]{0,40}?,\s*)?(\d{1,2}(?:st|nd|rd|th)?\s+\w+,?\s+\d{4})
   reCat [reLit "deadline", splus, reLit "for", splus, wplus, splus, reLit "is", splus, filler, shpDMY],
   -- \bby\s+(?:(?:Monday|...|Sunday),?\s+)?(\w+\.?\s+\d{1,2}(?:st|nd|rd|th)?,?\s+\d{4})
   reCat [RE.wb, reLit "by", splus, dayPre, shpMDYdot],
   -- \bby\s+(?:(?:Monday|...|Sunday),?\s+)?(\d{1,2}(?:st|nd|rd|th)?\s+\w+,?\s+\d{4})
   reCat [RE.wb, reLit "by", splus, dayPre, shpDMY],
   -- \bby\s+(?:(?:Monday|...|Sunday),?\s+)?(\w{3,9}\.?\s+\d{1,2}\s+\d{4})
   reCat [RE.wb, reLit "by", splus, dayPre,
     RE.grp 1 (reCat [reN wd 3 9, reOpt (chr '.'), splus, d12, splus, d4])],
   -- \bon\s+(\d{1,2}(?:st|nd|rd|th)?\s+\w+,?\s+\d{4})
   reCat [RE.wb, reLit "on", splus, shpDMY],
   -- \bon\s+(\w+\s+\d{1,2}(?:st|nd|rd|th)?,?\s+\d{4})
   reCat [RE.wb, reLit "on", splus, shpMDYo],
   -- \b(?:until|through)\s+(?:(?:the\s+)?(?:Monday|...|Sunday),?\s+)?(?:[^,\n]{0,40}?,\s*)?(\w+\s+\d{1,2}(?:st|nd|rd|th)?,?\s+\d{4})
   reCat [RE.wb, reAlts [reLit "until", reLit "through"], splus,
     reOpt (reCat [reOpt (reCat [reLit "the", splus]), dayNames, optComma, splus]),
     filler, shpMDYo],
   -- \b(?:until|through)\s+(?:(?:Monday|...|Sunday),?\s+)?(\d{1,2}(?:st|nd|rd|th)?\s+\w+,?\s+\d{4})
   reCat [RE.wb, reAlts [reLit "until", reLit "through"], splus, dayPre, shpDMY],
   -- [Dd]ue[:\s]+(?:(?:Monday|...|Sunday),?\s+)?(\w+\s+\d{1,2}(?:st|nd|rd|th)?,?\s+\d{4})
   reCat [kwColon "due", dayPre, shpMDYo],
   -- [Dd]ue[:\s]+(?:(?:Monday|...|Sunday),?\s+)?(\d{1,2}(?:st|nd|rd|th)?\s+\w+,?\s+\d{4})
   reCat [kwColon "due", dayPre, shpDMY],
   -- [Dd]eadline\s+of\s+(?:(?:Monday|...|Sunday),?\s+)?(\w+\s+\d{1,2}(?:st|nd|rd|th)?,?\s+\d{4})
   reCat [reLit "deadline", splus, reLit "of", splus, dayPre, shpMDYo],
   -- [Dd]eadline\s+of\s+(?:(?:Monday|...|Sunday),?\s+)?(\d{1,2}(?:st|nd|rd|th)?\s+\w+,?\s+\d{4})
   reCat [reLit "deadline", splus, reLit "of", splus, dayPre, shpDMY],
   -- extended\s+to\s+(?:(?:Monday|...|Sunday),?\s+)?(\w+\s+\d{1,2}(?:st|nd|rd|th)?,?\s+\d{4})
   reCat [reLit "extended", splus, reLit "to", splus, dayPre, shpMDYo],
   -- extended\s+to\s+(?:(?:Monday|...|Sunday),?\s+)?(\d{1,2}(?:st|nd|rd|th)?\s+\w+,?\s+\d{4})
   reCat [reLit "extended", splus, reLit "to", splus, dayPre, shpDMY],
   -- [Cc]losing.{0,30}?(\w+\s+\d{1,2}(?:st|nd|rd|th)?,?\s+\d{4})
   reCat [reLit "closing", lazyAny 30, shpMDYo],
   -- [Cc]losing.{0,30}?(\d{1,2}(?:st|nd|rd|th)?\s+\w+,?\s+\d{4})
   reCat [reLit "closing", lazyAny 30, shpDMY],
   -- [Dd]eadline.{0,60}?(\w+\s+\d{1,2},\s+\d{4})
   reCat [reLit "deadline", lazyAny 60,
     RE.grp 1 (reCat [wplus, splus, d12, chr ',', splus, d4])],
   -- [Dd]eadline.{0,60}?(\d{1,2}(?:st|nd|rd|th)?\s+\w+,?\s+\d{4})
   reCat [reLit "deadline", lazyAny 60, shpDMY],
   -- [Ss]ubmi.{0,60}?(\w+\s+\d{1,2}(?:st|nd|rd|th)?,\s+\d{4})
   reCat [reLit "submi", lazyAny 60,
     RE.grp 1 (reCat [wplus, splus, d12, ordSuf, chr ',', splus, d4])],
   -- [Ss]ubmi.{0,60}?(\d{1,2}(?:st|nd|rd|th)?\s+\w+,?\s+\d{4})
   reCat [reLit "submi", lazyAny 60, shpDMY],
   -- (\w+\s+\d{1,2}(?:st|nd|rd|th)?\s+\d{4}).{0,40}?(?:[Cc]losing|[Dd]eadline)
   reCat [RE.grp 1 (reCat [wplus, splus, d12, ordSuf, splus, d4]), lazyAny 40,
     reAlts [reLit "closing", reLit "deadline"]],
   -- (\d{1,2}(?:st|nd|rd|th)?\s+\w+,?\s+\d{4}).{0,40}?(?:[Cc]losing|[Dd]eadline)
   reCat [shpDMY, lazyAny 40, reAlts [reLit "closing", reLit "deadline"]]]

/-- `NO_YEAR_PATTERNS` of the source (the year-less second cascade). -/
def NO_YEAR_PATTERNS : List RE :=
  [ -- deadline\s+is\s+(?:(?:Monday|...|Sunday),?\s+)?(\d{1,2}(?:st|nd|rd|th)?\s+\w+)\b
   reCat [reLit "deadline", splus, reLit "is", splus, dayPre,
     RE.grp 1 (reCat [d12, ordSuf, splus, wplus]), RE.wb],
   -- deadline\s+is\s+(?:(?:Monday|...|Sunday),?\s+)?(\w+\.?\s+\d{1,2}(?:st|nd|rd|th)?)\b
   reCat [reLit "deadline", splus, reLit "is", splus, dayPre,
     RE.grp 1 (reCat [wplus, reOpt (chr '.'), splus, d12, ordSuf]), RE.wb],
   -- (?:by|on|until|through|before)\s+(?:(?:Monday|...|Sunday),?\s+)?(\w+\.?\s+\d{1,2}(?:st|nd|rd|th)?)\b
   reCat [reAlts [reLit "by", reLit "on", reLit "until", reLit "through", reLit "before"],
     splus, dayPre, RE.grp 1 (reCat [wplus, reOpt (chr '.'), splus, d12, ordSuf]), RE.wb],
   -- (?:by|on|until|through|before)\s+(?:(?:Monday|...|Sunday),?\s+)?(\d{1,2}(?:st|nd|rd|th)?\s+\w+)\b
   reCat [reAlts [reLit "by", reLit "on", reLit "until", reLit "through", reLit "before"],
     splus, dayPre, RE.grp 1 (reCat [d12, ordSuf, splus, wplus]), RE.wb],
   -- [Dd]eadline.{0,60}?(\w+\s+\d{1,2}(?:st|nd|rd|th)?)\b
   reCat [reLit "deadline", lazyAny 60, RE.grp 1 (reCat [wplus, splus, d12, ordSuf]), RE.wb],
   -- [Cc]losing.{0,30}?(\w+\s+\d{1,2}(?:st|nd|rd|th)?)\b
   reCat [reLit "closing", lazyAny 30, RE.grp 1 (reCat [wplus, splus, d12, ordSuf]), RE.wb],
   -- [Dd]ue[:\s]+(?:(?:Monday|...|Sunday),?\s+)?(\w+\s+\d{1,2}(?:st|nd|rd|th)?)\b
   reCat [kwColon "due", dayPre, RE.grp 1 (reCat [wplus, splus, d12, ordSuf]), RE.wb]]

/-! ## The conference-date cascade patterns (`CONF_DATE_PATTERNS`) -/

/-- `(\d{1,2}(?:st|nd|rd|th)?\s+\w+\s+\d{4}(?:\s*[-–]\s*\d{1,2}(?:st|nd|rd|th)?\s+\w+\s+\d{4})?)` -/
def shpConfDMYRange : RE :=
  RE.grp 1 (reCat [d12, ordSuf, splus, wplus, splus, d4,
    reOpt (reCat [sstar, RE.cls CC.dashes, sstar, d12, ordSuf, splus, wplus, splus, d4])])

/-- `(\w+\s+\d{1,2}(?:st|nd|rd|th)?(?:\s*[-–]\s*\d{1,2}(?:st|nd|rd|th)?)?,?\s+\d{4})` -/
def shpConfMDYRange : RE :=
  RE.grp 1 (reCat [wplus, splus, d12, ordSuf,
    reOpt (reCat [sstar, RE.cls CC.dashes, sstar, d12, ordSuf]), optComma, splus, d4])

/-- `(?:held|take[s]?\s+place)\s+(?:on\s+)?` -/
def heldOn : RE :=
  reCat [reAlts [reLit "held", reCat [reLit "take", reOpt (chr 's'), splus, reLit "place"]],
    splus, reOpt (reCat [reLit "on", splus])]

/-- `CONF_DATE_PATTERNS` of the source, in order. -/
def CONF_DATE_PATTERNS : List RE :=
  [ -- [Cc]onference\s+[Dd]ates?\s*[:\-]\s*(...)
   reCat [reLit "conference", splus, reLit "date", reOpt (chr 's'), sstar,
     RE.cls CC.colonOrDash, sstar, shpConfDMYRange],
   -- [Cc]onference\s+[Dd]ates?\s*[:\-]\s*(...)
   reCat [reLit "conference", splus, reLit "date", reOpt (chr 's'), sstar,
     RE.cls CC.colonOrDash, sstar, shpConfMDYRange],
   -- [Dd]ates?\s+of\s+(?:the\s+)?[Cc]onference\s*[:\-]\s*(...)
   reCat [reLit "date", reOpt (chr 's'), splus, reLit "of", splus,
     reOpt (reCat [reLit "the", splus]), reLit "conference", sstar,
     RE.cls CC.colonOrDash, sstar, shpConfDMYRange],
   -- [Dd]ates?\s+of\s+(?:the\s+)?[Cc]onference\s*[:\-]\s*(...)
   reCat [reLit "date", reOpt (chr 's'), splus, reLit "of", splus,
     reOpt (reCat [reLit "the", splus]), reLit "conference", sstar,
     RE.cls CC.colonOrDash, sstar, shpConfMDYRange],
   -- (?:^|\n)\s*[Dd]ate\s*:\s*(...)  (re.MULTILINE)
   reCat [reAlts [RE.bol, chr '\n'], sstar, reLit "date", sstar, chr ':', sstar, shpConfDMYRange],
   -- (?:^|\n)\s*[Dd]ate\s*:\s*(...)
   reCat [reAlts [RE.bol, chr '\n'], sstar, reLit "date", sstar, chr ':', sstar, shpConfMDYRange],
   -- (?:held|take[s]?\s+place)\s+(?:on\s+)?(\d{1,2}(?:st|nd|rd|th)?\s+\w+,?\s+\d{4})
   reCat [heldOn, shpDMY],
   -- (?:held|take[s]?\s+place)\s+(?:on\s+)?(\w+\s+\d{1,2}(?:st|nd|rd|th)?,?\s+\d{4})
   reCat [heldOn, shpMDYo],
   -- (?:held|take[s]?\s+place)\s+(?:on\s+)?(\d{1,2}(?:st|nd|rd|th)?[-–]\d{1,2}(?:st|nd|rd|th)?\s+\w+,?\s+\d{4})
   reCat [heldOn,
     RE.grp 1 (reCat [d12, ordSuf, RE.cls CC.dashes, d12, ordSuf, splus, wplus, optComma, splus, d4])],
   -- (?:held|take[s]?\s+place)\s+(?:on\s+)?(\w+\s+\d{1,2}(?:st|nd|rd|th)?[-–]\d{1,2}(?:st|nd|rd|th)?,?\s+\d{4})
   reCat [heldOn,
     RE.grp 1 (reCat [wplus, splus, d12, ordSuf, RE.cls CC.dashes, d12, ordSuf, optComma, splus, d4])],
   -- scheduled\s+for\s+(\w+\s+\d{1,2}(?:st|nd|rd|th)?,?\s+\d{4})
   reCat [reLit "scheduled", splus, reLit "for", splus, shpMDYo],
   -- scheduled\s+for\s+(\d{1,2}(?:st|nd|rd|th)?\s+\w+,?\s+\d{4})
   reCat [reLit "scheduled", splus, reLit "for", splus, shpDMY]]

/-! ## Extraction cascades -/

/-- Year prefix of an ISO-ish date string, Python `int(parsed[:4])`. -/
def yearOf (s : String) : Nat := digitsToNat (String.mk (s.data.take 4))

/-- The first (year-bearing) cascade of `extract_deadline_from_text`:
first pattern whose match parses to a date inside the plausibility
window wins; a match that fails to parse or falls outside the window
falls through to the next pattern. -/
def deadlinePass1 : List RE → String → Option String
  | [], _ => none
  | p :: ps, text =>
    match searchGroup1 true p text with
    | some g1 =>
      match parse_date_flexible g1 with
      | some parsed =>
        if 2025 ≤ yearOf parsed ∧ yearOf parsed ≤ 2028 then some parsed
        else deadlinePass1 ps text
      | none => deadlinePass1 ps text
    | none => deadlinePass1 ps text

/-- One year candidate of the second cascade: `raw + f", {y}"`, then
`raw + f" {y}"`. -/
def tryYearFor (raw : String) (y : Nat) : Option String :=
  match parse_date_flexible (raw ++ ", " ++ toString y) with
  | some p => some p
  | none => parse_date_flexible (raw ++ " " ++ toString y)

/-- The year-candidate loop of the second cascade: first year whose
completion parses wins (no validity or window check). -/
def inferYear (raw : String) : List Nat → Option String
  | [] => none
  | y :: ys =>
    match tryYearFor raw y with
    | some p => some p
    | none => inferYear raw ys

/-- The year-less second cascade of `extract_deadline_from_text`. -/
def deadlinePass2 : List RE → String → Nat → Option String
  | [], _, _ => none
  | p :: ps, text, cy =>
    match searchGroup1 true p text with
    | some g1 =>
      match inferYear (pyRstripDot (pyStrip g1)) [cy, cy + 1, cy - 1] with
      | some parsed => some parsed
      | none => deadlinePass2 ps text cy
    | none => deadlinePass2 ps text cy

/-- `extract_deadline_from_text` of the source.  The source reads
`date.today().year` inside the function; that wall-clock read is made
an explicit parameter `todayYear` here, so the embedding is a function
of the page text and the clock year the running process observes. -/
def extract_deadline_from_text (text : String) (todayYear : Nat) : Option String :=
  match deadlinePass1 DEADLINE_PATTERNS text with
  | some d => some d
  | none => deadlinePass2 NO_YEAR_PATTERNS text todayYear

/-- The per-match candidate of `extract_conf_date_from_text`:
`parse_conf_dates` on the stripped capture, falling back to
`parse_date_flexible` (with the raw capture as display). -/
def confStep (raw0 : String) : Option (String × String) :=
  let raw := pyStrip raw0
  let pr := parse_conf_dates raw
  if pr.1 ≠ "" then some (pr.1, pr.2)
  else
    match parse_date_flexible raw with
    | some d => some (d, raw)
    | none => none

/-- The pattern loop of `extract_conf_date_from_text`. -/
def confLoop : List RE → String → Option (String × String)
  | [], _ => none
  | p :: ps, text =>
    match searchGroup1 true p text with
    | some raw0 =>
      match confStep raw0 with
      | some sd =>
        if 2025 ≤ yearOf sd.1 ∧ yearOf sd.1 ≤ 2028 then some sd
        else confLoop ps text
      | none => confLoop ps text
    | none => confLoop ps text

/-- `extract_conf_date_from_text` of the source: `(startDate, display)`
on success, `none` for the `(None, None)` result. -/
def extract_conf_date_from_text (text : String) : Option (String × String) :=
  confLoop CONF_DATE_PATTERNS text

/-! ## Entry filter (`is_non_conference`) -/

/-- `NON_CONFERENCE_KEYWORDS` of the source. -/
def NON_CONFERENCE_KEYWORDS : List String :=
  ["prize", "award", "ph.d.", "phd in ", "professorship", "assistant professor",
   "finance theory insights", "data grant", "sbur collection",
   "farfe awards", "pre-announcments:", "ecomod school",
   "calling scholars interested", "call for registration",
   "multinational finance journal", "fully funded",
   "research programme", "research program", "monetary research",
   "call for proposals", "call for applications", "call for nominations",
   "call for research projects", "dissertation proposal", "dissertation grant",
   "doctoral internship", "doctoral colloquium",
   "hackathon", "webinar", "student research competition",
   "postdoctoral", "postdoc ", "research associate",
   "memorial prize", "memorial award",
   "graduate programme", "graduate program",
   "advances in econometrics volume", "bayesian macroeconometrics",
   "estimating the impact of", "education policy hackathon",
   "open-bid applied research", "data science summer school",
   "corporate governance summer school", "lse corporate governance summer",
   "call for papers:", "call for papers!",
   "now accepting submissions", "research grants provided by"]

/-- `NON_CONFERENCE_EXACT` of the source. -/
def NON_CONFERENCE_EXACT : List String :=
  ["summer school", "call for job market paper"]

/-- `CONFERENCE_SAFELIST` of the source. -/
def CONFERENCE_SAFELIST : List String :=
  ["annual meeting", "annual conference", "midyear meeting",
   "finance conference", "accounting conference", "economics conference",
   "annual congress", "winter finance", "research conference",
   "workshop", "symposium", "forum", "summit"]

/-- Does some safelist phrase occur in the (lowered) name? -/
def safelistHit (nl : String) : Bool :=
  CONFERENCE_SAFELIST.any (fun safe => strContains nl safe)

/-- The denylist loop of `is_non_conference`: the first keyword found in
the name decides (safelist wins); `none` when no keyword occurs. -/
def nonConfKwLoop (nl : String) : List String → Option Bool
  | [] => none
  | kw :: rest =>
    if strContains nl kw then some (!safelistHit nl)
    else nonConfKwLoop nl rest

/-- `is_non_conference` of the source. -/
def is_non_conference (name : String) : Bool :=
  let nl := pyLower name
  match nonConfKwLoop nl NON_CONFERENCE_KEYWORDS with
  | some b => b
  | none =>
    NON_CONFERENCE_EXACT.any (fun kw => strContains nl kw && !(strContains nl "conference"))

/-! ## Country detection (`detect_country`) -/

/-- `country_keywords` of `detect_country`, in insertion (= iteration)
order. -/
def country_keywords : List (String × String) :=
  [("United Kingdom", "UK"), ("United States", "USA"), ("Australia", "Australia"),
   ("Canada", "Canada"), ("China", "China"), ("Japan", "Japan"), ("Germany", "Germany"),
   ("France", "France"), ("Italy", "Italy"), ("Spain", "Spain"), ("India", "India"),
   ("Singapore", "Singapore"), ("South Korea", "South Korea"), ("Brazil", "Brazil"),
   ("Switzerland", "Switzerland"), ("Netherlands", "Netherlands"),
   ("Sweden", "Sweden"), ("Denmark", "Denmark"), ("Finland", "Finland"), ("Norway", "Norway"),
   ("Ireland", "Ireland"), ("Portugal", "Portugal"), ("Greece", "Greece"),
   ("Israel", "Israel"), ("UAE", "UAE"), ("Saudi Arabia", "Saudi Arabia"),
   ("Turkey", "Turkey"), ("Indonesia", "Indonesia"), ("Thailand", "Thailand"),
   ("Taiwan", "Taiwan"), ("Vietnam", "Vietnam"), ("New Zealand", "New Zealand"),
   ("Czech Republic", "Czech Republic"), ("Poland", "Poland"), ("Hungary", "Hungary"),
   ("Austria", "Austria"), ("Belgium", "Belgium"), ("Korea", "South Korea"),
   ("Mexico", "Mexico"), ("Chile", "Chile"), ("Iceland", "Iceland")]

/-- `INTERNATIONAL_CITIES` of the source, in insertion order. -/
def INTERNATIONAL_CITIES : List (String × String) :=
  [("London", "UK"), ("Oxford", "UK"), ("Cambridge", "UK"), ("Edinburgh", "UK"),
   ("Manchester", "UK"), ("Durham", "UK"), ("Warwick", "UK"), ("Bristol", "UK"),
   ("Leeds", "UK"), ("Exeter", "UK"), ("Bath", "UK"), ("Lancaster", "UK"),
   ("Paris", "France"), ("Lyon", "France"), ("Toulouse", "France"), ("Megeve", "France"),
   ("Corsica", "France"), ("Nice", "France"),
   ("Berlin", "Germany"), ("Frankfurt", "Germany"), ("Munich", "Germany"), ("Mannheim", "Germany"),
   ("Bonn", "Germany"), ("Halle", "Germany"),
   ("Rome", "Italy"), ("Milan", "Italy"), ("Venice", "Italy"), ("Florence", "Italy"),
   ("Bologna", "Italy"), ("Capri", "Italy"), ("Naples", "Italy"), ("Rimini", "Italy"),
   ("Madrid", "Spain"), ("Barcelona", "Spain"), ("Bilbao", "Spain"),
   ("Amsterdam", "Netherlands"), ("Rotterdam", "Netherlands"), ("Tilburg", "Netherlands"),
   ("Maastricht", "Netherlands"),
   ("Zurich", "Switzerland"), ("Geneva", "Switzerland"), ("Lausanne", "Switzerland"),
   ("St. Gallen", "Switzerland"), ("Lugano", "Switzerland"),
   ("Brussels", "Belgium"), ("Leuven", "Belgium"),
   ("Copenhagen", "Denmark"), ("Lisbon", "Portugal"),
   ("Athens", "Greece"), ("Stockholm", "Sweden"), ("Helsinki", "Finland"),
   ("Dublin", "Ireland"), ("Oslo", "Norway"), ("Vienna", "Austria"),
   ("Prague", "Czech Republic"), ("Warsaw", "Poland"), ("Budapest", "Hungary"),
   ("Beijing", "China"), ("Shanghai", "China"), ("Hong Kong", "Hong Kong"),
   ("Shenzhen", "China"), ("Xiamen", "China"),
   ("Tokyo", "Japan"), ("Seoul", "South Korea"), ("Busan", "South Korea"),
   ("Singapore", "Singapore"), ("Sydney", "Australia"), ("Melbourne", "Australia"),
   ("Brisbane", "Australia"), ("Perth", "Australia"),
   ("Mumbai", "India"), ("Bangalore", "India"),
   ("Taipei", "Taiwan"), ("Bangkok", "Thailand"), ("Jakarta", "Indonesia"),
   ("Toronto", "Canada"), ("Vancouver", "Canada"), ("Montreal", "Canada"),
   ("Whistler", "Canada"), ("Calgary", "Canada"), ("Banff", "Canada"),
   ("Bali", "Indonesia"), ("Dubai", "UAE"), ("Sharjah", "UAE"),
   ("Reykjavik", "Iceland"), ("Vilnius", "Lithuania"), ("Tallinn", "Estonia"),
   ("Tel Aviv", "Israel"), ("Haifa", "Israel"),
   ("Hanoi", "Vietnam"), ("Ho Chi Minh", "Vietnam")]

/-- `US_STATES` of the source.  The source iterates a `set`, whose
order is unspecified, but every member maps to the same result
("USA"), so an any-quantification is an exact model. -/
def US_STATES : List String :=
  ["AL", "AK", "AZ", "AR", "CA", "CO", "CT", "DE", "FL", "GA", "HI", "ID", "IL", "IN", "IA",
   "KS", "KY", "LA", "ME", "MD", "MA", "MI", "MN", "MS", "MO", "MT", "NE", "NV", "NH", "NJ",
   "NM", "NY", "NC", "ND", "OH", "OK", "OR", "PA", "RI", "SC", "SD", "TN", "TX", "UT", "VT",
   "VA", "WA", "WV", "WI", "WY", "DC"]

/-- `re.search(r'\b' + state + r'\b', loc)` (case-sensitive). -/
def wordHit (loc st : String) : Bool :=
  (reSearch false (reCat [RE.wb, reLit st, RE.wb]) loc).isSome

/-- `detect_country` of the source: country keyword, then known city,
then US-state abbreviation, then virtual keyword, else "Unknown". -/
def detect_country (location : String) : String :=
  if location = "" then "Unknown"
  else
    let loc := pyStrip location
    match firstSome
        (fun p => if strContains (pyLower loc) (pyLower p.1) then some p.2 else none)
        country_keywords with
    | some c => c
    | none =>
    match firstSome
        (fun p => if strContains (pyLower loc) (pyLower p.1) then some p.2 else none)
        INTERNATIONAL_CITIES with
    | some c => c
    | none =>
      if US_STATES.any (fun st => wordHit loc st) then "USA"
      else if (reSearch true (reCat [RE.wb,
          reAlts [reLit "virtual", reLit "online", reLit "zoom", reLit "remote"],
          RE.wb]) loc).isSome then "Virtual"
      else "Unknown"

/-! ## Discipline detection (`detect_disciplines`) -/

/-- Add a tag if not already present (set insertion / the
`if d not in ...: append` idiom of the merger). -/
def addDisc (l : List String) (d : String) : List String :=
  if d ∈ l then l else l ++ [d]

/-- Insertion into a ≤-sorted list of strings. -/
def insertStr (x : String) : List String → List String
  | [] => [x]
  | y :: ys => if strLt x y || x == y then x :: y :: ys else y :: insertStr x ys

/-- Insertion sort on strings — Python `sorted(...)`. -/
def sortStr (l : List String) : List String := l.foldr insertStr []

/-- `detect_disciplines` of the source: build the set of discipline
tags from category and name signals, return it sorted, defaulting to
`["fin"]` when empty. -/
def detect_disciplines (category name : String) : List String :=
  let cat := pyLower category
  let nm := pyLower name
  let e1 : List String := if strContains cat "finance" then addDisc [] "fin" else []
  let e2 := if strContains cat "accounting" then addDisc e1 "acct" else e1
  let e3 := if strContains cat "economics" || strContains cat "econ" then addDisc e2 "econ" else e2
  let e4 := if strContains nm "accounting" && !(e3.contains "acct") then addDisc e3 "acct" else e3
  let e5 := if (strContains nm "economics" || strContains nm "economic" ||
      strContains nm "macroeconom") && !(e4.contains "econ") then addDisc e4 "econ" else e4
  let e6 := if strContains nm "finance" && !(e5.contains "fin") then addDisc e5 "fin" else e5
  if e6 = [] then ["fin"] else sortStr e6

/-! ## The record merger (`merge_scraped_into_existing`)

A `ConferenceRecord` of the persistent store.  Records produced by the
engine always carry all fields; string fields default to `""`, so
Python `c.get(key)` truthiness is emptiness. -/

structure Rec where
  id : Int
  name : String
  dates : String
  startDate : String
  location : String
  country : String
  disc : List String
  sid : String
  ssrnLink : String
  deadline : String
  url : String
  tier : String
deriving DecidableEq

/-- A scraped entry (transient).  `deadline` and `conf_display` are
read with `dict.get` and their absent / present-but-empty distinction
matters, hence `Option`; `conf_start` is only ever used through
truthiness, so `""` stands for absent. -/
structure Entry where
  name : String
  dates : String
  location : String
  category : String
  sid : String
  ssrnLink : String
  deadline : Option String
  conf_start : String
  conf_display : Option String
deriving DecidableEq

/-- Truthiness of an optional string field (`s.get(k)` in a Python
`if`). -/
def optTruthy (o : Option String) : Bool :=
  match o with
  | some d => d ≠ ""
  | none => false

/-- The deadline update of the merger: overwrite only when the incoming
entry carries a truthy deadline and the current value is empty or
`"TBD"`. -/
def updDeadline (dl : String) (s : Entry) : String :=
  match s.deadline with
  | some d => if d ≠ "" ∧ (dl = "" ∨ dl = "TBD") then d else dl
  | none => dl

/-- The `(startDate, dates)` update of the merger: a detail-page
`conf_start` overwrites an empty or `-01`-suffixed (low-confidence)
start date, pulling `conf_display` along when truthy; otherwise listing
`dates` fill in only an empty display, with the parsed start date only
filling an empty `startDate`. -/
def updSD (p : String × String) (s : Entry) : String × String :=
  if s.conf_start ≠ "" then
    if p.1 = "" ∨ ends01 p.1 then
      (s.conf_start,
        match s.conf_display with
        | some d2 => if d2 ≠ "" then d2 else p.2
        | none => p.2)
    else p
  else if s.dates ≠ "" ∧ p.2 = "" then
    let pr := parse_conf_dates s.dates
    ((if pr.1 ≠ "" ∧ p.1 = "" then pr.1 else p.1),
     (if pr.2 ≠ "" then pr.2 else p.2))
  else p

/-- The `(location, country)` update of the merger: set only when the
current location is empty and the entry carries one. -/
def updLoc (p : String × String) (s : Entry) : String × String :=
  if s.location ≠ "" ∧ p.1 = "" then (s.location, detect_country s.location) else p

/-- The discipline update of the merger: append each detected tag not
already present. -/
def updDisc (l : List String) (s : Entry) : List String :=
  (detect_disciplines s.category s.name).foldl addDisc l

/-- One merger update of an existing record by an entry with the same
`sid` (the update branch of `merge_scraped_into_existing`). -/
def updateRec (r : Rec) (s : Entry) : Rec :=
  let sd := updSD (r.startDate, r.dates) s
  let lc := updLoc (r.location, r.country) s
  { r with
    deadline := updDeadline r.deadline s,
    startDate := sd.1, dates := sd.2,
    location := lc.1, country := lc.2,
    disc := updDisc r.disc s }

/-- The new-record branch of `merge_scraped_into_existing`. -/
def newRec (nid : Int) (s : Entry) : Rec :=
  let pr := parse_conf_dates s.dates
  let start_date := if s.conf_start ≠ "" then s.conf_start else pr.1
  let display_dates :=
    if s.conf_start ≠ "" then
      match s.conf_display with
      | some d => d
      | none => pr.2
    else pr.2
  { id := nid, name := s.name,
    dates := if display_dates ≠ "" then display_dates else s.dates,
    startDate := start_date,
    location := s.location,
    country := detect_country s.location,
    disc := detect_disciplines s.category s.name,
    sid := s.sid, ssrnLink := s.ssrnLink,
    deadline := (match s.deadline with | some d => d | none => "TBD"),
    url := "", tier := "" }

/-- Is some record of the store keyed by `x` (`sid in existing_by_sid`)? -/
def hasSid (st : List Rec) (x : String) : Bool :=
  st.any (fun r => r.sid == x)

/-- Apply `f` to the last record with sid `x`: the Python
`existing_by_sid` dict maps each sid to the last store record bearing
it, and mutations through the dict hit that record in place. -/
def updateLast (x : String) (f : Rec → Rec) : List Rec → List Rec
  | [] => []
  | r :: rs =>
    if hasSid rs x then r :: updateLast x f rs
    else if r.sid == x then f r :: rs
    else r :: rs

/-- One iteration of the merger loop: drop empty-sid entries, update an
existing record, or append a fresh one with the next sequential id. -/
def mergeStep (p : List Rec × Int) (s : Entry) : List Rec × Int :=
  if s.sid = "" then p
  else if hasSid p.1 s.sid then (updateLast s.sid (fun r => updateRec r s) p.1, p.2)
  else (p.1 ++ [newRec p.2 s], p.2 + 1)

/-- `max((c.get("id", 0) for c in existing), default=0)`. -/
def maxId : List Rec → Int
  | [] => 0
  | r :: rs => rs.foldl (fun a x => max a x.id) r.id

/-- `merge_scraped_into_existing` of the source: fold the batch over
the store, starting the id counter one above the largest existing id. -/
def merge_scraped_into_existing (existing : List Rec) (scraped : List Entry) : List Rec :=
  (scraped.foldl mergeStep (existing, maxId existing + 1)).1

/-! ## Store loading (`load_existing_json` + the `main` wrapper)

The store file is abstracted as: absent, present-but-corrupt, or
present with parsed records.  `load_existing_json` returns `[]` when
the file does not exist; `json.load` of a corrupt file raises an
exception that no run mode catches (`main` catches only
`ImportError`), terminating the process with a nonzero status before
any store write. -/

inductive StoreFile where
  | missing : StoreFile
  | corrupt : StoreFile
  | parsed : List Rec → StoreFile

/-- `load_existing_json` of the source, with the uncaught
`JSONDecodeError` surfaced as `Except.error`. -/
def load_existing_json : StoreFile → Except String (List Rec)
  | StoreFile.missing => Except.ok []
  | StoreFile.corrupt => Except.error "JSONDecodeError"
  | StoreFile.parsed rs => Except.ok rs

/-! ## Auxiliary definitions used by the theorems -/

/-- Gregorian leap year. -/
def isLeap (y : Nat) : Bool :=
  (y % 4 = 0 && y % 100 ≠ 0) || y % 400 = 0

/-- Days in a month. -/
def daysInMonth (y m : Nat) : Nat :=
  if m = 1 ∨ m = 3 ∨ m = 5 ∨ m = 7 ∨ m = 8 ∨ m = 10 ∨ m = 12 then 31
  else if m = 4 ∨ m = 6 ∨ m = 9 ∨ m = 11 then 30
  else if m = 2 then (if isLeap y then 29 else 28)
  else 0

/-- Is `s` a syntactically well-formed `YYYY-MM-DD` naming a real
calendar date? -/
def isValidCalendarDate (s : String) : Bool :=
  match s.data with
  | [y1, y2, y3, y4, c1, m1, m2, c2, d1, d2] =>
    c1 = '-' && c2 = '-' &&
    [y1, y2, y3, y4, m1, m2, d1, d2].all isDigitChar &&
    (let y := digitsToNat (String.mk [y1, y2, y3, y4])
     let m := digitsToNat (String.mk [m1, m2])
     let d := digitsToNat (String.mk [d1, d2])
     1 ≤ m && m ≤ 12 && 1 ≤ d && d ≤ daysInMonth y m)
  | _ => false

/-- One replay step: what the merger does to a store already containing
every batch sid (no creations). -/
def replayStep (st : List Rec) (s : Entry) : List Rec :=
  if s.sid = "" then st else updateLast s.sid (fun r => updateRec r s) st

/-- Replaying a whole batch of updates over a store. -/
def replayAll (st : List Rec) (b : List Entry) : List Rec :=
  b.foldl replayStep st

/-- The store invariant of the data model: `sid` unique among records
that have one. -/
def sidUnique (st : List Rec) : Prop :=
  List.Pairwise (fun a b => a.sid = "" ∨ a.sid ≠ b.sid) st

/-- `detect_disciplines` over its six boolean signals (proof helper;
`detect_disciplines` itself is the faithful transcription). -/
def discCore (fc ac ec an en fn : Bool) : List String :=
  let e1 : List String := if fc then addDisc [] "fin" else []
  let e2 := if ac then addDisc e1 "acct" else e1
  let e3 := if ec then addDisc e2 "econ" else e2
  let e4 := if an && !(e3.contains "acct") then addDisc e3 "acct" else e3
  let e5 := if en && !(e4.contains "econ") then addDisc e4 "econ" else e4
  let e6 := if fn && !(e5.contains "fin") then addDisc e5 "fin" else e5
  if e6 = [] then ["fin"] else sortStr e6

/-- The consecutive id block `n, n+1, ..., n+k-1`. -/
def idSeq (n : Int) (k : Nat) : List Int :=
  (List.range k).map (fun i : Nat => n + (i : Int))

/-- Entry deadline is absent, empty, or the sentinel. -/
def dlWeak (s : Entry) : Prop := ∀ d, s.deadline = some d → d = "" ∨ d = "TBD"

/-- Entry deadline is absent or empty. -/
def dlEmpty (s : Entry) : Prop := ∀ d, s.deadline = some d → d = ""

/-- The display value a firing `conf_start` branch assigns. -/
def dispOf (s : Entry) (old : String) : String :=
  match s.conf_display with
  | some d2 => if d2 ≠ "" then d2 else old
  | none => old

/-- The batch entries keyed by sid `S`. -/
def entOf (b : List Entry) (S : String) : List Entry :=
  b.filter (fun s => s.sid == S)

/-! ## Lemmas: entry filter -/

theorem nonConfKwLoop_eq (nl : String) (l : List String) :
    nonConfKwLoop nl l =
      if l.any (fun kw => strContains nl kw) then some (!safelistHit nl) else none := by
  induction l with
  | nil => simp [nonConfKwLoop]
  | cons kw rest ih =>
    by_cases h : strContains nl kw <;> simp [nonConfKwLoop, h, ih]

theorem is_non_conference_eq (name : String) :
    is_non_conference name =
      (if NON_CONFERENCE_KEYWORDS.any (fun kw => strContains (pyLower name) kw) then
        !safelistHit (pyLower name)
      else
        NON_CONFERENCE_EXACT.any (fun kw =>
          strContains (pyLower name) kw && !(strContains (pyLower name) "conference"))) := by
  simp only [is_non_conference]
  rw [nonConfKwLoop_eq]
  by_cases h : NON_CONFERENCE_KEYWORDS.any (fun kw => strContains (pyLower name) kw) <;>
    simp [h]

/-- C6.  The entry filter is a function of the lowercased name (hence
deterministic and case-insensitive); a name hitting the primary
denylist is nevertheless kept whenever any safelist phrase occurs in it
(safelist wins over denylist); the filter rejects exactly when either a
primary denylist phrase occurs with no safelist phrase, or no primary
phrase occurs and a secondary exact denylist phrase occurs while the
literal word "conference" is absent; in particular
"2026 Winter Finance Workshop for PhD Students" is kept and
"Postdoctoral Research Associate Position" is dropped. -/
theorem C6_entry_filter :
    (∀ a b : String, pyLower a = pyLower b → is_non_conference a = is_non_conference b)
    ∧ (∀ name : String, safelistHit (pyLower name) = true →
        NON_CONFERENCE_KEYWORDS.any (fun kw => strContains (pyLower name) kw) = true →
        is_non_conference name = false)
    ∧ (∀ name : String, is_non_conference name = true ↔
        ((NON_CONFERENCE_KEYWORDS.any (fun kw => strContains (pyLower name) kw) = true ∧
          safelistHit (pyLower name) = false) ∨
         (NON_CONFERENCE_KEYWORDS.any (fun kw => strContains (pyLower name) kw) = false ∧
          NON_CONFERENCE_EXACT.any (fun kw =>
            strContains (pyLower name) kw && !(strContains (pyLower name) "conference")) = true)))
    ∧ is_non_conference "2026 Winter Finance Workshop for PhD Students" = false
    ∧ is_non_conference "Postdoctoral Research Associate Position" = true := by
  refine ⟨?_, ?_, ?_, ?_, ?_⟩
  · intro a b h
    rw [is_non_conference_eq, is_non_conference_eq, h]
  · intro name hs hk
    rw [is_non_conference_eq, hk, hs]
    rfl
  · intro name
    rw [is_non_conference_eq]
    by_cases hk : NON_CONFERENCE_KEYWORDS.any (fun kw => strContains (pyLower name) kw) <;>
      by_cases hs : safelistHit (pyLower name) <;> simp [hk, hs]
  · decide
  · decide

/-- C6 witness: the conditional parts of `C6_entry_filter` discharged
at concrete names. -/
theorem C6_entry_filter_witness :
    is_non_conference "phd in finance workshop" =
      is_non_conference "PhD in Finance Workshop" ∧
    is_non_conference "PhD in Finance Workshop" = false := by
  constructor
  · exact C6_entry_filter.1 _ _ (by decide)
  · exact C6_entry_filter.2.1 _ (by decide) (by decide)

/-! ## Lemmas: discipline detection -/

theorem detect_disciplines_eq (category name : String) :
    detect_disciplines category name =
      discCore (strContains (pyLower category) "finance")
        (strContains (pyLower category) "accounting")
        (strContains (pyLower category) "economics" || strContains (pyLower category) "econ")
        (strContains (pyLower name) "accounting")
        (strContains (pyLower name) "economics" || strContains (pyLower name) "economic" ||
          strContains (pyLower name) "macroeconom")
        (strContains (pyLower name) "finance") := rfl

theorem discCore_ok (fc ac ec an en fn : Bool) :
    discCore fc ac ec an en fn ≠ [] ∧
    List.Pairwise (fun a b : String => strLt a b = true) (discCore fc ac ec an en fn) ∧
    (fc = false → ac = false → ec = false → an = false → en = false → fn = false →
      discCore fc ac ec an en fn = ["fin"]) := by
  cases fc <;> cases ac <;> cases ec <;> cases an <;> cases en <;> cases fn <;>
    refine ⟨by decide, ?_, by decide⟩ <;> decide

/-- C10.  Discipline detection always returns a non-empty, sorted,
duplicate-free tag list; when no finance / accounting / economics
signal occurs in the category or the name it returns exactly `["fin"]`;
and every record created by the merger carries a non-empty tag list. -/
theorem C10_detect_disciplines :
    (∀ category name : String, detect_disciplines category name ≠ [] ∧
      List.Pairwise (fun a b : String => strLt a b = true) (detect_disciplines category name))
    ∧ (∀ category name : String,
        strContains (pyLower category) "finance" = false →
        strContains (pyLower category) "accounting" = false →
        strContains (pyLower category) "economics" = false →
        strContains (pyLower category) "econ" = false →
        strContains (pyLower name) "accounting" = false →
        strContains (pyLower name) "economics" = false →
        strContains (pyLower name) "economic" = false →
        strContains (pyLower name) "macroeconom" = false →
        strContains (pyLower name) "finance" = false →
        detect_disciplines category name = ["fin"])
    ∧ (∀ (n : Int) (s : Entry), (newRec n s).disc ≠ []) := by
  refine ⟨?_, ?_, ?_⟩
  · intro category name
    rw [detect_disciplines_eq]
    exact ⟨(discCore_ok _ _ _ _ _ _).1, (discCore_ok _ _ _ _ _ _).2.1⟩
  · intro category name h1 h2 h3 h4 h5 h6 h7 h8 h9
    rw [detect_disciplines_eq, h1, h2, h3, h4, h5, h6, h7, h8, h9]
    exact (discCore_ok _ _ _ _ _ _).2.2 rfl rfl rfl rfl rfl rfl
  · intro n s
    have h : (newRec n s).disc = detect_disciplines s.category s.name := rfl
    rw [h, detect_disciplines_eq]
    exact (discCore_ok _ _ _ _ _ _).1

/-- C10 witness: the conditional part at a concrete no-signal input. -/
theorem C10_detect_disciplines_witness :
    detect_disciplines "Misc" "Annual Gathering" = ["fin"] :=
  C10_detect_disciplines.2.1 "Misc" "Annual Gathering" (by decide) (by decide) (by decide)
    (by decide) (by decide) (by decide) (by decide) (by decide) (by decide)

/-! ## Store loading: C9 -/

/-- C9 counterexample.  The claim says a missing store file is fatal at
startup; in the code `load_existing_json` returns the empty store when
the file does not exist, so the run proceeds — the missing-file case is
not an error. -/
theorem C9_counterexample :
    load_existing_json StoreFile.missing = Except.ok [] := rfl

/-- C9 amended.  A corrupt store file raises `json.JSONDecodeError`,
which no run mode and not `main` (which catches only `ImportError`)
handles, so the process dies with a nonzero status before any store
write; a missing store file is instead treated as an empty store and
the run proceeds; a well-formed store loads as-is. -/
theorem C9_amended_load :
    load_existing_json StoreFile.corrupt = Except.error "JSONDecodeError" ∧
    load_existing_json StoreFile.missing = Except.ok [] ∧
    ∀ rs, load_existing_json (StoreFile.parsed rs) = Except.ok rs :=
  ⟨rfl, rfl, fun _ => rfl⟩

/-! ## Merger field projections -/

theorem updateRec_deadline (r : Rec) (s : Entry) :
    (updateRec r s).deadline = updDeadline r.deadline s := rfl

theorem updateRec_startDate (r : Rec) (s : Entry) :
    (updateRec r s).startDate = (updSD (r.startDate, r.dates) s).1 := rfl

theorem updateRec_dates (r : Rec) (s : Entry) :
    (updateRec r s).dates = (updSD (r.startDate, r.dates) s).2 := rfl

theorem updateRec_location (r : Rec) (s : Entry) :
    (updateRec r s).location = (updLoc (r.location, r.country) s).1 := rfl

theorem updateRec_country (r : Rec) (s : Entry) :
    (updateRec r s).country = (updLoc (r.location, r.country) s).2 := rfl

theorem updateRec_disc (r : Rec) (s : Entry) :
    (updateRec r s).disc = updDisc r.disc s := rfl

theorem updateRec_id (r : Rec) (s : Entry) : (updateRec r s).id = r.id := rfl

theorem updateRec_name (r : Rec) (s : Entry) : (updateRec r s).name = r.name := rfl

theorem updateRec_sid (r : Rec) (s : Entry) : (updateRec r s).sid = r.sid := rfl

theorem updateRec_ssrnLink (r : Rec) (s : Entry) : (updateRec r s).ssrnLink = r.ssrnLink := rfl

theorem updateRec_url (r : Rec) (s : Entry) : (updateRec r s).url = r.url := rfl

theorem updateRec_tier (r : Rec) (s : Entry) : (updateRec r s).tier = r.tier := rfl

/-! ## C2: the deadline overwrite policy -/

/-- C2.  For entries whose carried deadline (if any) is a concrete date
— which is what the scraper produces, deadlines being extracted through
the cascade — a concrete record deadline is never changed by a merge
update, and the deadline changes exactly when the current value is
empty or `"TBD"` and the entry carries a concrete deadline. -/
theorem C2_deadline_policy (r : Rec) (s : Entry)
    (hconc : ∀ d, s.deadline = some d → d ≠ "" ∧ d ≠ "TBD") :
    (r.deadline ≠ "" → r.deadline ≠ "TBD" → (updateRec r s).deadline = r.deadline)
    ∧ ((updateRec r s).deadline ≠ r.deadline ↔
        ((r.deadline = "" ∨ r.deadline = "TBD") ∧
         ∃ d, s.deadline = some d ∧ d ≠ "" ∧ d ≠ "TBD")) := by
  have hP : ∀ d, s.deadline = some d →
      updDeadline r.deadline s =
        if d ≠ "" ∧ (r.deadline = "" ∨ r.deadline = "TBD") then d else r.deadline := by
    intro d hd
    simp [updDeadline, hd]
  rw [updateRec_deadline]
  cases hsd : s.deadline with
  | none => simp [updDeadline, hsd]
  | some d =>
    rw [hP d hsd]
    obtain ⟨hd1, hd2⟩ := hconc d hsd
    constructor
    · intro h1 h2
      simp [h1, h2]
    · by_cases hw : r.deadline = "" ∨ r.deadline = "TBD"
      · have hval : (if d ≠ "" ∧ (r.deadline = "" ∨ r.deadline = "TBD") then d else r.deadline) = d := by
          simp [hd1, hw]
        rw [hval]
        constructor
        · intro _
          exact ⟨hw, d, rfl, hd1, hd2⟩
        · intro _
          rcases hw with hw | hw <;> rw [hw]
          · exact hd1
          · exact hd2
      · simp [hw]

/-- C2 witness: a record with deadline `"TBD"` merged with an entry
carrying `"2026-05-01"` is overwritten; with deadline `"2026-05-01"` a
later `"2026-06-01"` changes nothing. -/
theorem C2_deadline_policy_witness :
    (updateRec (Rec.mk 1 "C" "" "" "" "Unknown" ["fin"] "9" "u" "TBD" "" "")
      (Entry.mk "C" "" "" "Finance" "9" "u" (some "2026-05-01") "" none)).deadline = "2026-05-01" ∧
    (updateRec (Rec.mk 1 "C" "" "" "" "Unknown" ["fin"] "9" "u" "2026-05-01" "" "")
      (Entry.mk "C" "" "" "Finance" "9" "u" (some "2026-06-01") "" none)).deadline = "2026-05-01" := by
  constructor
  · have h := (C2_deadline_policy (Rec.mk 1 "C" "" "" "" "Unknown" ["fin"] "9" "u" "TBD" "" "")
      (Entry.mk "C" "" "" "Finance" "9" "u" (some "2026-05-01") "" none)
      (fun d hd => by
        have : d = "2026-05-01" := by injection hd with h2; exact h2.symm
        rw [this]; exact ⟨by decide, by decide⟩)).2
    by_cases hc : (updateRec (Rec.mk 1 "C" "" "" "" "Unknown" ["fin"] "9" "u" "TBD" "" "")
        (Entry.mk "C" "" "" "Finance" "9" "u" (some "2026-05-01") "" none)).deadline = "TBD"
    · exact absurd (h.mpr ⟨Or.inr rfl, "2026-05-01", rfl, by decide, by decide⟩) (by simp [hc])
    · decide
  · exact (C2_deadline_policy (Rec.mk 1 "C" "" "" "" "Unknown" ["fin"] "9" "u" "2026-05-01" "" "")
      (Entry.mk "C" "" "" "Finance" "9" "u" (some "2026-06-01") "" none)
      (fun d hd => by
        have : d = "2026-06-01" := by injection hd with h2; exact h2.symm
        rw [this]; exact ⟨by decide, by decide⟩)).1 (by decide) (by decide)

/-! ## Fold decomposition: each record field evolves independently -/

theorem foldl_updateRec_deadline (es : List Entry) (r : Rec) :
    (es.foldl updateRec r).deadline = es.foldl (fun v s => updDeadline v s) r.deadline := by
  induction es generalizing r with
  | nil => rfl
  | cons s t ih => rw [List.foldl_cons, List.foldl_cons, ih, updateRec_deadline]

theorem foldl_updateRec_SD (es : List Entry) (r : Rec) :
    ((es.foldl updateRec r).startDate, (es.foldl updateRec r).dates) =
      es.foldl updSD (r.startDate, r.dates) := by
  induction es generalizing r with
  | nil => rfl
  | cons s t ih =>
    rw [List.foldl_cons, List.foldl_cons, ih, updateRec_startDate, updateRec_dates]

theorem foldl_updateRec_Loc (es : List Entry) (r : Rec) :
    ((es.foldl updateRec r).location, (es.foldl updateRec r).country) =
      es.foldl updLoc (r.location, r.country) := by
  induction es generalizing r with
  | nil => rfl
  | cons s t ih =>
    rw [List.foldl_cons, List.foldl_cons, ih, updateRec_location, updateRec_country]

theorem foldl_updateRec_disc (es : List Entry) (r : Rec) :
    (es.foldl updateRec r).disc = es.foldl (fun l s => updDisc l s) r.disc := by
  induction es generalizing r with
  | nil => rfl
  | cons s t ih => rw [List.foldl_cons, List.foldl_cons, ih, updateRec_disc]

theorem foldl_updateRec_sid (es : List Entry) (r : Rec) :
    (es.foldl updateRec r).sid = r.sid := by
  induction es generalizing r with
  | nil => rfl
  | cons s t ih => rw [List.foldl_cons, ih, updateRec_sid]

theorem foldl_updateRec_id (es : List Entry) (r : Rec) :
    (es.foldl updateRec r).id = r.id := by
  induction es generalizing r with
  | nil => rfl
  | cons s t ih => rw [List.foldl_cons, ih, updateRec_id]

/-! ## Freeze / monotonicity lemmas for the field updates -/

theorem updDeadline_concrete (dl : String) (s : Entry) (h1 : dl ≠ "") (h2 : dl ≠ "TBD") :
    updDeadline dl s = dl := by
  unfold updDeadline
  cases s.deadline with
  | none => rfl
  | some d => simp [h1, h2]

theorem foldD_concrete (es : List Entry) (dl : String) (h1 : dl ≠ "") (h2 : dl ≠ "TBD") :
    es.foldl (fun v s => updDeadline v s) dl = dl := by
  induction es with
  | nil => rfl
  | cons s t ih => rw [List.foldl_cons, updDeadline_concrete dl s h1 h2, ih]

theorem updSD_frozen (p : String × String) (s : Entry) (h1 : p.1 ≠ "")
    (h2 : ends01 p.1 = false) : (updSD p s).1 = p.1 := by
  unfold updSD
  by_cases hc : s.conf_start ≠ ""
  · simp [hc, h1, h2]
  · by_cases hd : s.dates ≠ "" ∧ p.2 = "" <;> simp [hc, hd, h1]

theorem foldSD_frozen (es : List Entry) (p : String × String) (h1 : p.1 ≠ "")
    (h2 : ends01 p.1 = false) : (es.foldl updSD p).1 = p.1 := by
  induction es generalizing p with
  | nil => rfl
  | cons s t ih =>
    rw [List.foldl_cons]
    have hs : (updSD p s).1 = p.1 := updSD_frozen p s h1 h2
    rw [ih (updSD p s) (hs ▸ h1) (hs ▸ h2), hs]

theorem updLoc_frozen (p : String × String) (s : Entry) (h1 : p.1 ≠ "") :
    updLoc p s = p := by
  unfold updLoc
  simp [h1]

theorem foldLoc_frozen (es : List Entry) (p : String × String) (h1 : p.1 ≠ "") :
    es.foldl updLoc p = p := by
  induction es with
  | nil => rfl
  | cons s t ih => rw [List.foldl_cons, updLoc_frozen p s h1, ih]

theorem addDisc_mem_mono (l : List String) (d x : String) (h : x ∈ l) : x ∈ addDisc l d := by
  unfold addDisc
  by_cases hd : d ∈ l <;> simp [hd, h]

theorem foldl_addDisc_mem_mono (xs l : List String) (x : String) (h : x ∈ l) :
    x ∈ xs.foldl addDisc l := by
  induction xs generalizing l with
  | nil => exact h
  | cons d t ih => exact ih (addDisc l d) (addDisc_mem_mono l d x h)

theorem updDisc_mem_mono (l : List String) (s : Entry) (x : String) (h : x ∈ l) :
    x ∈ updDisc l s :=
  foldl_addDisc_mem_mono _ l x h

theorem foldDisc_mem_mono (es : List Entry) (l : List String) (x : String) (h : x ∈ l) :
    x ∈ es.foldl (fun l2 s => updDisc l2 s) l := by
  induction es generalizing l with
  | nil => exact h
  | cons s t ih => exact ih (updDisc l s) (updDisc_mem_mono l s x h)

/-! ## C5: start-date confidence policy and only-strengthen monotonicity -/

/-- C5.  With an entry carrying a detail-page start date
(`conf_start` truthy), the `startDate` of a record is overwritten exactly
when the current value is empty or low-confidence (ends in `"-01"`), so
a high-confidence value is never downgraded; and across any sequence of
merge updates, a high-confidence `startDate`, a concrete deadline, a
non-empty location/country pair, and every present discipline tag are
preserved. -/
theorem C5_startDate_policy :
    (∀ (r : Rec) (s : Entry), s.conf_start ≠ "" →
      (updateRec r s).startDate =
        (if r.startDate = "" ∨ ends01 r.startDate = true then s.conf_start else r.startDate))
    ∧ (∀ (r : Rec) (es : List Entry), r.startDate ≠ "" → ends01 r.startDate = false →
        (es.foldl updateRec r).startDate = r.startDate)
    ∧ (∀ (r : Rec) (es : List Entry), r.deadline ≠ "" → r.deadline ≠ "TBD" →
        (es.foldl updateRec r).deadline = r.deadline)
    ∧ (∀ (r : Rec) (es : List Entry), r.location ≠ "" →
        (es.foldl updateRec r).location = r.location ∧
        (es.foldl updateRec r).country = r.country)
    ∧ (∀ (r : Rec) (es : List Entry) (x : String), x ∈ r.disc →
        x ∈ (es.foldl updateRec r).disc) := by
  refine ⟨?_, ?_, ?_, ?_, ?_⟩
  · intro r s hc
    rw [updateRec_startDate]
    unfold updSD
    by_cases hw : r.startDate = "" ∨ ends01 r.startDate = true <;> simp [hc, hw]
  · intro r es h1 h2
    have := foldl_updateRec_SD es r
    have hp : (es.foldl updSD (r.startDate, r.dates)).1 = r.startDate :=
      foldSD_frozen es (r.startDate, r.dates) h1 h2
    rw [← hp]
    exact congrArg Prod.fst this
  · intro r es h1 h2
    rw [foldl_updateRec_deadline]
    exact foldD_concrete es r.deadline h1 h2
  · intro r es h1
    have := foldl_updateRec_Loc es r
    have hp : es.foldl updLoc (r.location, r.country) = (r.location, r.country) :=
      foldLoc_frozen es (r.location, r.country) h1
    rw [hp] at this
    exact ⟨congrArg Prod.fst this, congrArg Prod.snd this⟩
  · intro r es x h
    rw [foldl_updateRec_disc]
    exact foldDisc_mem_mono es r.disc x h

/-- C5 witness: a high-confidence start date survives an entry carrying
a different detail-page date, while a low-confidence one is replaced. -/
theorem C5_startDate_policy_witness :
    (updateRec (Rec.mk 1 "C" "Jul 15" "2026-07-15" "" "Unknown" ["fin"] "9" "u" "TBD" "" "")
      (Entry.mk "C" "" "" "Finance" "9" "u" none "2026-08-02" (some "Aug 2"))).startDate =
        "2026-07-15" ∧
    (updateRec (Rec.mk 1 "C" "" "2026-07-01" "" "Unknown" ["fin"] "9" "u" "TBD" "" "")
      (Entry.mk "C" "" "" "Finance" "9" "u" none "2026-08-02" (some "Aug 2"))).startDate =
        "2026-08-02" := by
  constructor
  · rw [C5_startDate_policy.1 _ _ (by decide)]
    decide
  · rw [C5_startDate_policy.1 _ _ (by decide)]
    decide

/-! ## C8: identity, dropping, id allocation -/

theorem foldl_max_ge_init (rs : List Rec) (a : Int) :
    a ≤ rs.foldl (fun x r => max x r.id) a := by
  induction rs generalizing a with
  | nil => exact le_refl a
  | cons r t ih => exact le_trans (le_max_left a r.id) (ih (max a r.id))

theorem foldl_max_ge_mem (rs : List Rec) (a : Int) (r : Rec) (h : r ∈ rs) :
    r.id ≤ rs.foldl (fun x r2 => max x r2.id) a := by
  induction rs generalizing a with
  | nil => cases h
  | cons r0 t ih =>
    rcases List.mem_cons.mp h with h0 | h0
    · subst h0
      exact le_trans (le_max_right a r.id) (foldl_max_ge_init t (max a r.id))
    · exact ih (max a r0.id) h0

theorem maxId_ge (st : List Rec) (r : Rec) (h : r ∈ st) : r.id ≤ maxId st := by
  cases st with
  | nil => cases h
  | cons r0 t =>
    unfold maxId
    rcases List.mem_cons.mp h with h0 | h0
    · subst h0
      exact foldl_max_ge_init t r.id
    · exact foldl_max_ge_mem t r0.id r h0

theorem updateLast_map_id (x : String) (f : Rec → Rec) (hf : ∀ r, (f r).id = r.id)
    (st : List Rec) : (updateLast x f st).map (fun r => r.id) = st.map (fun r => r.id) := by
  induction st with
  | nil => rfl
  | cons r rs ih =>
    unfold updateLast
    by_cases h1 : hasSid rs x
    · simp only [h1, if_pos, List.map_cons]
      rw [ih]
    · by_cases h2 : r.sid == x <;> simp [h1, h2, hf r]

theorem mergeStep_skip (p : List Rec × Int) (s : Entry) (h : s.sid = "") :
    mergeStep p s = p := by
  unfold mergeStep
  simp [h]

theorem mergeStep_update (st : List Rec) (n : Int) (s : Entry) (h1 : s.sid ≠ "")
    (h2 : hasSid st s.sid = true) :
    mergeStep (st, n) s = (updateLast s.sid (fun r => updateRec r s) st, n) := by
  unfold mergeStep
  simp [h1, h2]

theorem mergeStep_new (st : List Rec) (n : Int) (s : Entry) (h1 : s.sid ≠ "")
    (h2 : hasSid st s.sid = false) :
    mergeStep (st, n) s = (st ++ [newRec n s], n + 1) := by
  unfold mergeStep
  simp [h1, h2]

theorem idSeq_succ (n : Int) (k : Nat) : idSeq n (k + 1) = n :: idSeq (n + 1) k := by
  unfold idSeq
  rw [List.range_succ_eq_map, List.map_cons, List.map_map]
  congr 1
  · simp
  · apply List.map_congr_left
    intro i _
    simp only [Function.comp_apply, Nat.succ_eq_add_one]
    push_cast
    ring

theorem merge_ids_consec (b : List Entry) (st : List Rec) (n : Int) :
    ∃ k : Nat,
      (b.foldl mergeStep (st, n)).1.map (fun r => r.id) =
        st.map (fun r => r.id) ++ idSeq n k ∧
      (b.foldl mergeStep (st, n)).2 = n + (k : Int) := by
  induction b generalizing st n with
  | nil => exact ⟨0, by simp [idSeq]⟩
  | cons s t ih =>
    rw [List.foldl_cons]
    by_cases h0 : s.sid = ""
    · rw [mergeStep_skip _ s h0]
      exact ih st n
    · by_cases h1 : hasSid st s.sid
      · rw [mergeStep_update st n s h0 h1]
        obtain ⟨k, hk1, hk2⟩ := ih (updateLast s.sid (fun r => updateRec r s) st) n
        refine ⟨k, ?_, hk2⟩
        rw [hk1, updateLast_map_id s.sid _ (fun r => updateRec_id r s) st]
      · rw [mergeStep_new st n s h0 (by simpa using h1)]
        obtain ⟨k, hk1, hk2⟩ := ih (st ++ [newRec n s]) (n + 1)
        refine ⟨k + 1, ?_, ?_⟩
        · rw [hk1, idSeq_succ]
          have hni : (newRec n s).id = n := rfl
          simp [hni]
        · rw [hk2]
          push_cast
          ring

/-- C8.  An empty-sid entry is dropped (the merger state is unchanged);
an unseen sid appends exactly one new record; the deadline of a new record
defaults to `"TBD"` when the entry carries none; every stored id is at
most `maxId`; the ids of a merged store are the original ids followed
by consecutive ids starting at `maxId + 1` (sequential, never reused,
each strictly greater than every id already present); and merging a
fresh `sid = "12345"` entry without a deadline into the empty store
yields exactly one record with deadline `"TBD"` and id 1. -/
theorem C8_new_record_policy :
    (∀ (p : List Rec × Int) (s : Entry), s.sid = "" → mergeStep p s = p)
    ∧ (∀ (st : List Rec) (n : Int) (s : Entry), s.sid ≠ "" → hasSid st s.sid = false →
        mergeStep (st, n) s = (st ++ [newRec n s], n + 1))
    ∧ (∀ (n : Int) (s : Entry), s.deadline = none → (newRec n s).deadline = "TBD")
    ∧ (∀ (st : List Rec) (r : Rec), r ∈ st → r.id ≤ maxId st)
    ∧ (∀ (st : List Rec) (b : List Entry), ∃ k : Nat,
        (merge_scraped_into_existing st b).map (fun r => r.id) =
          st.map (fun r => r.id) ++ idSeq (maxId st + 1) k)
    ∧ merge_scraped_into_existing []
        [Entry.mk "Test Conference 2026" "" "" "Finance" "12345" "link" none "" none] =
      [Rec.mk 1 "Test Conference 2026" "" "" "" "Unknown" ["fin"] "12345" "link" "TBD" "" ""] := by
  refine ⟨?_, ?_, ?_, ?_, ?_, ?_⟩
  · intro p s h
    exact mergeStep_skip p s h
  · intro st n s h1 h2
    exact mergeStep_new st n s h1 h2
  · intro n s h
    unfold newRec
    simp [h]
  · exact maxId_ge
  · intro st b
    obtain ⟨k, hk1, _⟩ := merge_ids_consec b st (maxId st + 1)
    exact ⟨k, hk1⟩
  · decide

/-- C8 witness: the conditional parts at concrete inputs — an empty-sid
entry leaves the state unchanged, and a fresh-sid entry appends one
record. -/
theorem C8_new_record_policy_witness :
    mergeStep ([], 1) (Entry.mk "X" "" "" "" "" "u" none "" none) = ([], 1) ∧
    mergeStep ([], 1) (Entry.mk "X" "" "" "" "7" "u" none "" none) =
      ([newRec 1 (Entry.mk "X" "" "" "" "7" "u" none "" none)], 2) ∧
    (newRec 1 (Entry.mk "X" "" "" "" "7" "u" none "" none)).deadline = "TBD" := by
  refine ⟨?_, ?_, ?_⟩
  · exact C8_new_record_policy.1 ([], 1) _ rfl
  · exact C8_new_record_policy.2.1 [] 1 _ (by decide) (by decide)
  · exact C8_new_record_policy.2.2.1 1 _ rfl

/-! ## Window lemmas for the cascades -/

theorem deadlinePass1_window (ps : List RE) (t d : String)
    (h : deadlinePass1 ps t = some d) : 2025 ≤ yearOf d ∧ yearOf d ≤ 2028 := by
  induction ps with
  | nil => simp [deadlinePass1] at h
  | cons p rest ih =>
    unfold deadlinePass1 at h
    split at h
    · split at h
      · split at h
        · rename_i hw
          injection h with h2
          rw [← h2]
          exact hw
        · exact ih h
      · exact ih h
    · exact ih h

theorem confLoop_window (ps : List RE) (t : String) (p : String × String)
    (h : confLoop ps t = some p) : 2025 ≤ yearOf p.1 ∧ yearOf p.1 ≤ 2028 := by
  induction ps with
  | nil => simp [confLoop] at h
  | cons q rest ih =>
    unfold confLoop at h
    split at h
    · split at h
      · split at h
        · rename_i hw
          injection h with h2
          rw [← h2]
          exact hw
        · exact ih h
      · exact ih h
    · exact ih h

/-! ## C3: determinism and the wall-clock read -/

/-- C3 counterexample.  The claim says no implicit wall-clock time is
read inside either cascade; but `extract_deadline_from_text` reads
`date.today().year` (modelled as the explicit `todayYear` argument),
and on the same text the result differs across clock years, so the
output is not a function of the page text (and there is no as-of
parameter in the source to hold fixed). -/
theorem C3_counterexample :
    extract_deadline_from_text "deadline is March 3" 2026 ≠
      extract_deadline_from_text "deadline is March 3" 2030 := by
  decide

/-- C3 amended.  Conference-date extraction takes only the text, and
deadline extraction is a deterministic function of the text and the
wall-clock year read inside it; the clock year influences the result
only through the year-less second cascade: whenever the year-bearing
first cascade produces a result, the extracted deadline is independent
of the clock year. -/
theorem C3_amended_determinism (t : String) (y1 y2 : Nat)
    (h : deadlinePass1 DEADLINE_PATTERNS t ≠ none) :
    extract_deadline_from_text t y1 = extract_deadline_from_text t y2 := by
  unfold extract_deadline_from_text
  cases hs : deadlinePass1 DEADLINE_PATTERNS t with
  | none => exact absurd hs h
  | some d => rfl

/-- C3 witness: on a text matched by the first cascade the result is
the same at clock years 2026 and 2030. -/
theorem C3_amended_determinism_witness :
    deadlinePass1 DEADLINE_PATTERNS "Submission Deadline: February 25, 2026" ≠ none ∧
    extract_deadline_from_text "Submission Deadline: February 25, 2026" 2026 =
      extract_deadline_from_text "Submission Deadline: February 25, 2026" 2030 :=
  ⟨by decide, C3_amended_determinism _ 2026 2030 (by decide)⟩

/-! ## C4: the plausibility window -/

/-- C4 counterexample.  The claim says every date returned through
either deadline cascade has a year in [2025, 2028]; but the year-less
second cascade applies no window check: with the wall clock at 2030,
"deadline is March 4" yields "2030-03-04", outside the window. -/
theorem C4_counterexample :
    extract_deadline_from_text "deadline is March 4" 2030 = some "2030-03-04" ∧
    ¬(2025 ≤ yearOf "2030-03-04" ∧ yearOf "2030-03-04" ≤ 2028) := by
  constructor
  · decide
  · decide

/-- C4 amended.  Every date returned by the year-bearing deadline
cascade and by conference-date extraction has a year inside the
configured window [2025, 2028], for every input text — years appearing
elsewhere in the text cannot escape the window through these paths.
(The year-less second cascade carries no window check; its result year
comes from the wall clock, as the counterexample shows.) -/
theorem C4_amended_window :
    (∀ t d : String, deadlinePass1 DEADLINE_PATTERNS t = some d →
      2025 ≤ yearOf d ∧ yearOf d ≤ 2028)
    ∧ (∀ (t : String) (p : String × String), extract_conf_date_from_text t = some p →
        2025 ≤ yearOf p.1 ∧ yearOf p.1 ≤ 2028) := by
  constructor
  · intro t d h
    exact deadlinePass1_window DEADLINE_PATTERNS t d h
  · intro t p h
    exact confLoop_window CONF_DATE_PATTERNS t p h

/-- C4 witness: both window statements discharged at concrete texts. -/
theorem C4_amended_window_witness :
    (2025 ≤ yearOf "2026-02-25" ∧ yearOf "2026-02-25" ≤ 2028) ∧
    (2025 ≤ yearOf "2026-07-11" ∧ yearOf "2026-07-11" ≤ 2028) := by
  constructor
  · exact C4_amended_window.1 "Submission Deadline: February 25, 2026" "2026-02-25" (by decide)
  · exact C4_amended_window.2 "The conference will be held on 11 July 2026 in Rome."
      ("2026-07-11", "Jul 11") (by decide)

/-! ## C7: the year-less second cascade -/

/-- C7 counterexample.  The claim says the missing year is resolved by
accepting the first candidate that yields a *valid*, in-window date;
but the second cascade accepts the first candidate whose date *shape*
parses, with no calendar-validity (and no window) check: "deadline is
February 31" yields "2026-02-31", which is not a real calendar date. -/
theorem C7_counterexample :
    extract_deadline_from_text "deadline is February 31" 2026 = some "2026-02-31" ∧
    isValidCalendarDate "2026-02-31" = false := by
  constructor
  · decide
  · decide

/-- C7 amended.  When no year-bearing pattern matches, the second
cascade runs the year-less patterns and resolves the missing year by
trying, in order, the as-of (wall-clock) year, that year plus one, and
that year minus one, accepting the first whose completed string parses
under the date-shape parser (no calendar-validity or window check); in
particular "deadline is March 3" with the clock year 2026 yields
"2026-03-03". -/
theorem C7_amended_year_inference :
    (∀ t (y : Nat), deadlinePass1 DEADLINE_PATTERNS t = none →
      extract_deadline_from_text t y = deadlinePass2 NO_YEAR_PATTERNS t y)
    ∧ (∀ raw (y : Nat), tryYearFor raw y ≠ none →
        inferYear raw [y, y + 1, y - 1] = tryYearFor raw y)
    ∧ (∀ raw (y : Nat), tryYearFor raw y = none → tryYearFor raw (y + 1) ≠ none →
        inferYear raw [y, y + 1, y - 1] = tryYearFor raw (y + 1))
    ∧ (∀ raw (y : Nat), tryYearFor raw y = none → tryYearFor raw (y + 1) = none →
        inferYear raw [y, y + 1, y - 1] = tryYearFor raw (y - 1))
    ∧ extract_deadline_from_text "deadline is March 3" 2026 = some "2026-03-03" := by
  refine ⟨?_, ?_, ?_, ?_, by decide⟩
  · intro t y h
    unfold extract_deadline_from_text
    rw [h]
  · intro raw y h
    unfold inferYear
    cases ht : tryYearFor raw y with
    | none => exact absurd ht h
    | some p => rfl
  · intro raw y h1 h2
    unfold inferYear
    rw [h1]
    unfold inferYear
    cases ht : tryYearFor raw (y + 1) with
    | none => exact absurd ht h2
    | some p => rfl
  · intro raw y h1 h2
    unfold inferYear
    rw [h1]
    unfold inferYear
    rw [h2]
    unfold inferYear
    cases ht : tryYearFor raw (y - 1) with
    | none => simp [inferYear, ht]
    | some p => simp [inferYear, ht]

/-- C7 witness: the conditional parts discharged concretely — the
first candidate year 2026 parses for the raw capture "March 3", and a
raw capture with no month never parses, falling through all years. -/
theorem C7_amended_year_inference_witness :
    extract_deadline_from_text "deadline is March 3" 2026 =
      deadlinePass2 NO_YEAR_PATTERNS "deadline is March 3" 2026 ∧
    inferYear "March 3" [2026, 2027, 2025] = tryYearFor "March 3" 2026 := by
  constructor
  · exact C7_amended_year_inference.1 "deadline is March 3" 2026 (by decide)
  · exact C7_amended_year_inference.2.1 "March 3" 2026 (by decide)

/-! ## C1 groundwork: deadline-field fixed point -/


theorem updDeadline_some (v : String) (s : Entry) (d : String) (hd : s.deadline = some d) :
    updDeadline v s = if d ≠ "" ∧ (v = "" ∨ v = "TBD") then d else v := by
  unfold updDeadline
  rw [hd]

theorem updDeadline_none (v : String) (s : Entry) (hd : s.deadline = none) :
    updDeadline v s = v := by
  unfold updDeadline
  rw [hd]

theorem foldD_eq_TBD_entries (es : List Entry) (v : String)
    (h : es.foldl (fun v2 s => updDeadline v2 s) v = "TBD") : ∀ s ∈ es, dlWeak s := by
  induction es generalizing v with
  | nil => intro s hs; cases hs
  | cons s t ih =>
    rw [List.foldl_cons] at h
    intro s2 hs2
    rcases List.mem_cons.mp hs2 with h0 | h0
    · subst h0
      intro d hd
      by_contra hcon
      push_neg at hcon
      obtain ⟨hd1, hd2⟩ := hcon
      rw [updDeadline_some v s2 d hd] at h
      by_cases hw : v = "" ∨ v = "TBD"
      · rw [if_pos ⟨hd1, hw⟩] at h
        rw [foldD_concrete t d hd1 hd2] at h
        exact hd2 h
      · have hcond : ¬(d ≠ "" ∧ (v = "" ∨ v = "TBD")) := fun hc => hw hc.2
        rw [if_neg hcond] at h
        push_neg at hw
        rw [foldD_concrete t v hw.1 hw.2] at h
        exact hw.2 h
    · exact ih (updDeadline v s) h s2 h0

theorem foldD_TBD_all_weak (es : List Entry) (h : ∀ s ∈ es, dlWeak s) :
    es.foldl (fun v2 s => updDeadline v2 s) "TBD" = "TBD" := by
  induction es with
  | nil => rfl
  | cons s t ih =>
    rw [List.foldl_cons]
    have hs : updDeadline "TBD" s = "TBD" := by
      cases hd : s.deadline with
      | none => exact updDeadline_none _ s hd
      | some d =>
        rw [updDeadline_some _ s d hd]
        rcases h s (List.mem_cons_self s t) d hd with h0 | h0
        · simp [h0]
        · subst h0
          by_cases hc : ("TBD" : String) ≠ "" ∧ (("TBD" : String) = "" ∨ ("TBD" : String) = "TBD")
          · rw [if_pos hc]
          · rw [if_neg hc]
    rw [hs]
    exact ih (fun s2 hs2 => h s2 (List.mem_cons_of_mem s hs2))

theorem foldD_eq_empty (es : List Entry) (v : String)
    (h : es.foldl (fun v2 s => updDeadline v2 s) v = "") :
    v = "" ∧ ∀ s ∈ es, dlEmpty s := by
  induction es generalizing v with
  | nil => exact ⟨h, fun s hs => absurd hs (List.not_mem_nil s)⟩
  | cons s t ih =>
    rw [List.foldl_cons] at h
    obtain ⟨hq, hall⟩ := ih (updDeadline v s) h
    have hs : v = "" ∧ dlEmpty s := by
      cases hd : s.deadline with
      | none =>
        rw [updDeadline_none v s hd] at hq
        exact ⟨hq, fun d hd2 => by rw [hd] at hd2; cases hd2⟩
      | some d =>
        rw [updDeadline_some v s d hd] at hq
        by_cases hc : d ≠ "" ∧ (v = "" ∨ v = "TBD")
        · rw [if_pos hc] at hq
          exact absurd hq hc.1
        · rw [if_neg hc] at hq
          subst hq
          constructor
          · rfl
          · intro d2 hd2
            rw [hd] at hd2
            injection hd2 with h2
            subst h2
            by_contra hne
            exact hc ⟨hne, Or.inl rfl⟩
    refine ⟨hs.1, fun s2 hs2 => ?_⟩
    rcases List.mem_cons.mp hs2 with h0 | h0
    · subst h0
      exact hs.2
    · exact hall s2 h0

theorem foldD_empty_all (es : List Entry) (h : ∀ s ∈ es, dlEmpty s) :
    es.foldl (fun v2 s => updDeadline v2 s) "" = "" := by
  induction es with
  | nil => rfl
  | cons s t ih =>
    rw [List.foldl_cons]
    have hs : updDeadline "" s = "" := by
      cases hd : s.deadline with
      | none => exact updDeadline_none _ s hd
      | some d =>
        rw [updDeadline_some _ s d hd]
        have h0 : d = "" := h s (List.mem_cons_self s t) d hd
        simp [h0]
    rw [hs]
    exact ih (fun s2 hs2 => h s2 (List.mem_cons_of_mem s hs2))

theorem foldD_idem (es : List Entry) (v : String) :
    es.foldl (fun v2 s => updDeadline v2 s)
        (es.foldl (fun v2 s => updDeadline v2 s) v) =
      es.foldl (fun v2 s => updDeadline v2 s) v := by
  by_cases h1 : es.foldl (fun v2 s => updDeadline v2 s) v = ""
  · rw [h1]
    exact foldD_empty_all es (foldD_eq_empty es v h1).2
  · by_cases h2 : es.foldl (fun v2 s => updDeadline v2 s) v = "TBD"
    · rw [h2]
      exact foldD_TBD_all_weak es (foldD_eq_TBD_entries es v h2)
    · exact foldD_concrete es _ h1 h2

/-! ## C1 groundwork: (startDate, dates) fixed point -/


theorem updSD_cs_fire (p : String × String) (s : Entry) (hc : s.conf_start ≠ "")
    (hw : p.1 = "" ∨ ends01 p.1 = true) :
    updSD p s = (s.conf_start, dispOf s p.2) := by
  unfold updSD dispOf
  simp [hc, hw]

theorem updSD_cs_skip (p : String × String) (s : Entry) (hc : s.conf_start ≠ "")
    (hw : ¬(p.1 = "" ∨ ends01 p.1 = true)) : updSD p s = p := by
  unfold updSD
  simp [hc, hw]

theorem updSD_elif_fire (p : String × String) (s : Entry) (hc : s.conf_start = "")
    (hd : s.dates ≠ "") (hp2 : p.2 = "") :
    updSD p s =
      ((if (parse_conf_dates s.dates).1 ≠ "" ∧ p.1 = "" then (parse_conf_dates s.dates).1
        else p.1),
       (if (parse_conf_dates s.dates).2 ≠ "" then (parse_conf_dates s.dates).2 else p.2)) := by
  unfold updSD
  simp [hc, hd, hp2]

theorem updSD_elif_skip (p : String × String) (s : Entry) (hc : s.conf_start = "")
    (hns : ¬(s.dates ≠ "" ∧ p.2 = "")) : updSD p s = p := by
  unfold updSD
  simp only [hc, ne_eq, not_true_eq_false, false_and, if_false]
  exact if_neg hns

theorem updSD_fst_empty (p : String × String) (s : Entry) (h : (updSD p s).1 = "") :
    p.1 = "" := by
  by_cases hc : s.conf_start ≠ ""
  · by_cases hw : p.1 = "" ∨ ends01 p.1 = true
    · rw [updSD_cs_fire p s hc hw] at h
      exact absurd h hc
    · rw [updSD_cs_skip p s hc hw] at h
      exact h
  · push_neg at hc
    by_cases hf : s.dates ≠ "" ∧ p.2 = ""
    · rw [updSD_elif_fire p s hc hf.1 hf.2] at h
      by_cases hp : (parse_conf_dates s.dates).1 ≠ "" ∧ p.1 = ""
      · rw [if_pos hp] at h
        exact absurd h hp.1
      · rw [if_neg hp] at h
        exact h
    · rw [updSD_elif_skip p s hc hf] at h
      exact h

theorem foldSD_fst_empty (es : List Entry) (p : String × String)
    (h : (es.foldl updSD p).1 = "") : p.1 = "" := by
  induction es generalizing p with
  | nil => exact h
  | cons s t ih => exact updSD_fst_empty p s (ih (updSD p s) h)

theorem updSD_snd_empty (p : String × String) (s : Entry) (h : (updSD p s).2 = "") :
    p.2 = "" := by
  by_cases hc : s.conf_start ≠ ""
  · by_cases hw : p.1 = "" ∨ ends01 p.1 = true
    · rw [updSD_cs_fire p s hc hw] at h
      cases hd : s.conf_display with
      | none =>
        simp only [dispOf, hd] at h
        exact h
      | some d2 =>
        simp only [dispOf, hd] at h
        by_cases h2 : d2 ≠ ""
        · rw [if_pos h2] at h
          exact absurd h h2
        · rw [if_neg h2] at h
          exact h
    · rw [updSD_cs_skip p s hc hw] at h
      exact h
  · push_neg at hc
    by_cases hf : s.dates ≠ "" ∧ p.2 = ""
    · exact hf.2
    · rw [updSD_elif_skip p s hc hf] at h
      exact h

theorem foldSD_snd_empty (es : List Entry) (p : String × String)
    (h : (es.foldl updSD p).2 = "") : p.2 = "" := by
  induction es generalizing p with
  | nil => exact h
  | cons s t ih => exact updSD_snd_empty p s (ih (updSD p s) h)

theorem foldSD_replay_snd (t : List Entry) :
    ∀ (c d : String), c ≠ "" →
      List.foldl updSD (c, (List.foldl updSD (c, d) t).2) t =
        List.foldl updSD (c, d) t := by
  induction t with
  | nil =>
    intro c d hc
    rfl
  | cons s r ih =>
    intro c d hc
    rw [List.foldl_cons, List.foldl_cons]
    by_cases hcs : s.conf_start ≠ ""
    · by_cases hw : (c = "" ∨ ends01 c = true)
      · have hq2 : ∀ x, updSD (c, x) s = (s.conf_start, dispOf s x) :=
          fun x => updSD_cs_fire (c, x) s hcs hw
        cases hcd : s.conf_display with
        | some d2 =>
          by_cases h2 : d2 ≠ ""
          · have hdisp : ∀ x, dispOf s x = d2 := fun x => by simp [dispOf, hcd, h2]
            rw [hq2 d, hdisp]
            rw [hq2 _, hdisp]
          · have hdisp : ∀ x, dispOf s x = x := fun x => by
              simp only [dispOf, hcd, h2, if_false]
            rw [hq2 d, hdisp]
            rw [hq2 _, hdisp]
            exact ih s.conf_start d hcs
        | none =>
          have hdisp : ∀ x, dispOf s x = x := fun x => by simp [dispOf, hcd]
          rw [hq2 d, hdisp]
          rw [hq2 _, hdisp]
          exact ih s.conf_start d hcs
      · have hq2 : ∀ x, updSD (c, x) s = (c, x) := fun x => updSD_cs_skip (c, x) s hcs hw
        rw [hq2 d]
        rw [hq2 ((List.foldl updSD (c, d) r).2)]
        exact ih c d hc
    · push_neg at hcs
      by_cases hw : (c = "" ∨ ends01 c = true)
      · -- conf_start is empty: the branch cannot fire; fall through to elif cases
        by_cases hfs : s.dates ≠ "" ∧ d = ""
        · have hq : updSD (c, d) s =
              (c, if (parse_conf_dates s.dates).2 ≠ "" then (parse_conf_dates s.dates).2
                  else d) := by
            rw [updSD_elif_fire (c, d) s hcs hfs.1 hfs.2]
            simp [hc]
          by_cases hpr2 : (parse_conf_dates s.dates).2 ≠ ""
          · rw [if_pos hpr2] at hq
            rw [hq]
            have hF2 : (List.foldl updSD (c, (parse_conf_dates s.dates).2) r).2 ≠ "" :=
              fun h => hpr2 (foldSD_snd_empty r (c, (parse_conf_dates s.dates).2) h)
            have hq2 : updSD (c, (List.foldl updSD (c, (parse_conf_dates s.dates).2) r).2) s =
                (c, (List.foldl updSD (c, (parse_conf_dates s.dates).2) r).2) :=
              updSD_elif_skip _ s hcs (fun hcon => hF2 hcon.2)
            rw [hq2]
            exact ih c (parse_conf_dates s.dates).2 hc
          · rw [if_neg hpr2] at hq
            rw [hq]
            by_cases hF2 : (List.foldl updSD (c, d) r).2 = ""
            · have hq2 : updSD (c, (List.foldl updSD (c, d) r).2) s =
                  (c, (List.foldl updSD (c, d) r).2) := by
                rw [updSD_elif_fire (c, (List.foldl updSD (c, d) r).2) s hcs hfs.1 hF2]
                push_neg at hpr2
                simp [hc, hpr2]
            
              rw [hq2]
              exact ih c d hc
            · have hq2 : updSD (c, (List.foldl updSD (c, d) r).2) s =
                  (c, (List.foldl updSD (c, d) r).2) :=
                updSD_elif_skip _ s hcs (fun hcon => hF2 hcon.2)
              rw [hq2]
              exact ih c d hc
        · have hq : updSD (c, d) s = (c, d) := updSD_elif_skip _ s hcs hfs
          rw [hq]
          by_cases hsd : s.dates ≠ ""
          · have hd : d ≠ "" := fun h0 => hfs ⟨hsd, h0⟩
            have hF2 : (List.foldl updSD (c, d) r).2 ≠ "" :=
              fun h => hd (foldSD_snd_empty r (c, d) h)
            have hq2 : updSD (c, (List.foldl updSD (c, d) r).2) s =
                (c, (List.foldl updSD (c, d) r).2) :=
              updSD_elif_skip _ s hcs (fun hcon => hF2 hcon.2)
            rw [hq2]
            exact ih c d hc
          · have hq2 : updSD (c, (List.foldl updSD (c, d) r).2) s =
                (c, (List.foldl updSD (c, d) r).2) :=
              updSD_elif_skip _ s hcs (fun hcon => hsd hcon.1)
            rw [hq2]
            exact ih c d hc
      · -- neither branch can change a frozen first component; the elif
        -- may still fire on the dates side
        by_cases hfs : s.dates ≠ "" ∧ d = ""
        · have hq : updSD (c, d) s =
              (c, if (parse_conf_dates s.dates).2 ≠ "" then (parse_conf_dates s.dates).2
                  else d) := by
            rw [updSD_elif_fire (c, d) s hcs hfs.1 hfs.2]
            simp [hc]
          by_cases hpr2 : (parse_conf_dates s.dates).2 ≠ ""
          · rw [if_pos hpr2] at hq
            rw [hq]
            have hF2 : (List.foldl updSD (c, (parse_conf_dates s.dates).2) r).2 ≠ "" :=
              fun h => hpr2 (foldSD_snd_empty r (c, (parse_conf_dates s.dates).2) h)
            have hq2 : updSD (c, (List.foldl updSD (c, (parse_conf_dates s.dates).2) r).2) s =
                (c, (List.foldl updSD (c, (parse_conf_dates s.dates).2) r).2) :=
              updSD_elif_skip _ s hcs (fun hcon => hF2 hcon.2)
            rw [hq2]
            exact ih c (parse_conf_dates s.dates).2 hc
          · rw [if_neg hpr2] at hq
            rw [hq]
            by_cases hF2 : (List.foldl updSD (c, d) r).2 = ""
            · have hq2 : updSD (c, (List.foldl updSD (c, d) r).2) s =
                  (c, (List.foldl updSD (c, d) r).2) := by
                rw [updSD_elif_fire (c, (List.foldl updSD (c, d) r).2) s hcs hfs.1 hF2]
                push_neg at hpr2
                simp [hc, hpr2]
              rw [hq2]
              exact ih c d hc
            · have hq2 : updSD (c, (List.foldl updSD (c, d) r).2) s =
                  (c, (List.foldl updSD (c, d) r).2) :=
                updSD_elif_skip _ s hcs (fun hcon => hF2 hcon.2)
              rw [hq2]
              exact ih c d hc
        · have hq : updSD (c, d) s = (c, d) := updSD_elif_skip _ s hcs hfs
          rw [hq]
          by_cases hsd : s.dates ≠ ""
          · have hd : d ≠ "" := fun h0 => hfs ⟨hsd, h0⟩
            have hF2 : (List.foldl updSD (c, d) r).2 ≠ "" :=
              fun h => hd (foldSD_snd_empty r (c, d) h)
            have hq2 : updSD (c, (List.foldl updSD (c, d) r).2) s =
                (c, (List.foldl updSD (c, d) r).2) :=
              updSD_elif_skip _ s hcs (fun hcon => hF2 hcon.2)
            rw [hq2]
            exact ih c d hc
          · have hq2 : updSD (c, (List.foldl updSD (c, d) r).2) s =
                (c, (List.foldl updSD (c, d) r).2) :=
              updSD_elif_skip _ s hcs (fun hcon => hsd hcon.1)
            rw [hq2]
            exact ih c d hc

theorem foldSD_idem (es : List Entry) :
    ∀ p : String × String,
      List.foldl updSD (List.foldl updSD p es) es = List.foldl updSD p es := by
  induction es with
  | nil =>
    intro p
    rfl
  | cons s t ih =>
    intro p
    rw [List.foldl_cons, List.foldl_cons]
    by_cases hcs : s.conf_start ≠ ""
    · by_cases hwF : ((List.foldl updSD (updSD p s) t).1 = "" ∨
          ends01 (List.foldl updSD (updSD p s) t).1 = true)
      · have hwp : (p.1 = "" ∨ ends01 p.1 = true) := by
          by_contra hnp
          have hq : updSD p s = p := updSD_cs_skip p s hcs hnp
          rw [hq] at hwF
          push_neg at hnp
          obtain ⟨hnp1, hnp2⟩ := hnp
          have h01 : ends01 p.1 = false := by
            cases hval : ends01 p.1
            · rfl
            · exact absurd hval hnp2
          have hfz : (List.foldl updSD p t).1 = p.1 := foldSD_frozen t p hnp1 h01
          rw [hfz] at hwF
          rcases hwF with h0 | h0
          · exact hnp1 h0
          · exact hnp2 h0
        have hqF : updSD (List.foldl updSD (updSD p s) t) s =
            (s.conf_start, dispOf s (List.foldl updSD (updSD p s) t).2) :=
          updSD_cs_fire _ s hcs hwF
        have hqp : updSD p s = (s.conf_start, dispOf s p.2) := updSD_cs_fire p s hcs hwp
        rw [hqF, hqp]
        cases hcd : s.conf_display with
        | some d2 =>
          by_cases h2 : d2 ≠ ""
          · have hdisp : ∀ x, dispOf s x = d2 := fun x => by simp [dispOf, hcd, h2]
            rw [hdisp, hdisp]
          · have hdisp : ∀ x, dispOf s x = x := fun x => by
              simp only [dispOf, hcd, h2, if_false]
            rw [hdisp, hdisp]
            exact foldSD_replay_snd t s.conf_start p.2 hcs
        | none =>
          have hdisp : ∀ x, dispOf s x = x := fun x => by simp [dispOf, hcd]
          rw [hdisp, hdisp]
          exact foldSD_replay_snd t s.conf_start p.2 hcs
      · have hqF : updSD (List.foldl updSD (updSD p s) t) s =
            List.foldl updSD (updSD p s) t := updSD_cs_skip _ s hcs hwF
        rw [hqF]
        exact ih (updSD p s)
    · push_neg at hcs
      by_cases hfF : s.dates ≠ "" ∧ (List.foldl updSD (updSD p s) t).2 = ""
      · have hq2 : (updSD p s).2 = "" := foldSD_snd_empty t _ hfF.2
        by_cases hfp : s.dates ≠ "" ∧ p.2 = ""
        · have hqp : updSD p s =
              ((if (parse_conf_dates s.dates).1 ≠ "" ∧ p.1 = ""
                then (parse_conf_dates s.dates).1 else p.1),
               (if (parse_conf_dates s.dates).2 ≠ ""
                then (parse_conf_dates s.dates).2 else p.2)) :=
            updSD_elif_fire p s hcs hfp.1 hfp.2
          have hpr2 : (parse_conf_dates s.dates).2 = "" := by
            by_contra hne
            rw [hqp] at hq2
            simp only [if_pos hne] at hq2
            exact hne hq2
          have hFfst : ¬((parse_conf_dates s.dates).1 ≠ "" ∧
              (List.foldl updSD (updSD p s) t).1 = "") := by
            rintro ⟨hpr1, hF1⟩
            have hq1 : (updSD p s).1 = "" := foldSD_fst_empty t _ hF1
            rw [hqp] at hq1
            by_cases hcond : (parse_conf_dates s.dates).1 ≠ "" ∧ p.1 = ""
            · simp only [if_pos hcond] at hq1
              exact hpr1 hq1
            · simp only [if_neg hcond] at hq1
              exact hcond ⟨hpr1, hq1⟩
          have hqF : updSD (List.foldl updSD (updSD p s) t) s =
              List.foldl updSD (updSD p s) t := by
            rw [updSD_elif_fire _ s hcs hfF.1 hfF.2]
            rw [if_neg hFfst, hpr2]
            simp
          rw [hqF]
          exact ih (updSD p s)
        · have hqp : updSD p s = p := updSD_elif_skip p s hcs hfp
          rw [hqp] at hq2
          exact (hfp ⟨hfF.1, hq2⟩).elim
      · have hqF : updSD (List.foldl updSD (updSD p s) t) s =
            List.foldl updSD (updSD p s) t := updSD_elif_skip _ s hcs hfF
        rw [hqF]
        exact ih (updSD p s)

/-! ## C1 groundwork: location and discipline fixed points -/

theorem updLoc_fst_empty (p : String × String) (s : Entry) (h : (updLoc p s).1 = "") :
    p.1 = "" := by
  unfold updLoc at h
  by_cases hc : s.location ≠ "" ∧ p.1 = ""
  · rw [if_pos hc] at h
    exact absurd h hc.1
  · rw [if_neg hc] at h
    exact h

theorem foldLoc_fst_empty (es : List Entry) (p : String × String)
    (h : (es.foldl updLoc p).1 = "") : p.1 = "" := by
  induction es generalizing p with
  | nil => exact h
  | cons s t ih => exact updLoc_fst_empty p s (ih (updLoc p s) h)

theorem updLoc_fire (p : String × String) (s : Entry) (h : s.location ≠ "" ∧ p.1 = "") :
    updLoc p s = (s.location, detect_country s.location) := by
  unfold updLoc
  rw [if_pos h]

theorem updLoc_skip (p : String × String) (s : Entry) (h : ¬(s.location ≠ "" ∧ p.1 = "")) :
    updLoc p s = p := by
  unfold updLoc
  rw [if_neg h]

theorem foldLoc_idem (es : List Entry) :
    ∀ p : String × String,
      List.foldl updLoc (List.foldl updLoc p es) es = List.foldl updLoc p es := by
  induction es with
  | nil =>
    intro p
    rfl
  | cons s t ih =>
    intro p
    rw [List.foldl_cons, List.foldl_cons]
    have hqF : updLoc (List.foldl updLoc (updLoc p s) t) s =
        List.foldl updLoc (updLoc p s) t := by
      by_cases hfire : s.location ≠ "" ∧ (List.foldl updLoc (updLoc p s) t).1 = ""
      · exfalso
        have hq1 : (updLoc p s).1 = "" := foldLoc_fst_empty t _ hfire.2
        have hp1 : p.1 = "" := updLoc_fst_empty p s hq1
        have hfp : updLoc p s = (s.location, detect_country s.location) :=
          updLoc_fire p s ⟨hfire.1, hp1⟩
        rw [hfp] at hq1
        exact hfire.1 hq1
      · exact updLoc_skip _ s hfire
    rw [hqF]
    exact ih (updLoc p s)

theorem mem_addDisc_self (l : List String) (d : String) : d ∈ addDisc l d := by
  unfold addDisc
  by_cases h : d ∈ l <;> simp [h]

theorem foldl_addDisc_self_mem (xs : List String) (l : List String) (x : String)
    (h : x ∈ xs) : x ∈ xs.foldl addDisc l := by
  induction xs generalizing l with
  | nil => cases h
  | cons d t ih =>
    rcases List.mem_cons.mp h with h0 | h0
    · subst h0
      exact foldl_addDisc_mem_mono t (addDisc l x) x (mem_addDisc_self l x)
    · exact ih (addDisc l d) h0

theorem foldl_addDisc_noop (xs : List String) (l : List String)
    (h : ∀ x ∈ xs, x ∈ l) : xs.foldl addDisc l = l := by
  induction xs with
  | nil => rfl
  | cons d t ih =>
    have hd : addDisc l d = l := by
      unfold addDisc
      rw [if_pos (h d (List.mem_cons_self d t))]
    rw [List.foldl_cons, hd]
    exact ih (fun x hx => h x (List.mem_cons_of_mem d hx))

theorem updDisc_fix (l : List String) (s : Entry)
    (h : ∀ x ∈ detect_disciplines s.category s.name, x ∈ l) : updDisc l s = l :=
  foldl_addDisc_noop _ l h

theorem foldDisc_contains_entry (es : List Entry) (l : List String) (s : Entry)
    (hs : s ∈ es) (x : String) (hx : x ∈ detect_disciplines s.category s.name) :
    x ∈ es.foldl (fun l2 s2 => updDisc l2 s2) l := by
  induction es generalizing l with
  | nil => cases hs
  | cons s0 t ih =>
    rcases List.mem_cons.mp hs with h0 | h0
    · subst h0
      exact foldDisc_mem_mono t (updDisc l s) x (foldl_addDisc_self_mem _ l x hx)
    · exact ih (updDisc l s0) h0

theorem foldDisc_noop (es : List Entry) (l : List String)
    (h : ∀ s ∈ es, ∀ x ∈ detect_disciplines s.category s.name, x ∈ l) :
    es.foldl (fun l2 s2 => updDisc l2 s2) l = l := by
  induction es with
  | nil => rfl
  | cons s t ih =>
    rw [List.foldl_cons, updDisc_fix l s (h s (List.mem_cons_self s t))]
    exact ih (fun s2 hs2 => h s2 (List.mem_cons_of_mem s hs2))

theorem foldDisc_idem (es : List Entry) (l : List String) :
    es.foldl (fun l2 s2 => updDisc l2 s2) (es.foldl (fun l2 s2 => updDisc l2 s2) l) =
      es.foldl (fun l2 s2 => updDisc l2 s2) l :=
  foldDisc_noop es _ (fun s hs x hx => foldDisc_contains_entry es l s hs x hx)

/-! ## C1 groundwork: per-record idempotence and the new-record fixed point -/

theorem recExt (a b : Rec) (h1 : a.id = b.id) (h2 : a.name = b.name) (h3 : a.dates = b.dates)
    (h4 : a.startDate = b.startDate) (h5 : a.location = b.location) (h6 : a.country = b.country)
    (h7 : a.disc = b.disc) (h8 : a.sid = b.sid) (h9 : a.ssrnLink = b.ssrnLink)
    (h10 : a.deadline = b.deadline) (h11 : a.url = b.url) (h12 : a.tier = b.tier) : a = b := by
  cases a
  cases b
  simp_all

theorem foldl_updateRec_nameF (es : List Entry) (r : Rec) :
    (es.foldl updateRec r).name = r.name := by
  induction es generalizing r with
  | nil => rfl
  | cons s t ih => rw [List.foldl_cons, ih, updateRec_name]

theorem foldl_updateRec_ssrnLinkF (es : List Entry) (r : Rec) :
    (es.foldl updateRec r).ssrnLink = r.ssrnLink := by
  induction es generalizing r with
  | nil => rfl
  | cons s t ih => rw [List.foldl_cons, ih, updateRec_ssrnLink]

theorem foldl_updateRec_urlF (es : List Entry) (r : Rec) :
    (es.foldl updateRec r).url = r.url := by
  induction es generalizing r with
  | nil => rfl
  | cons s t ih => rw [List.foldl_cons, ih, updateRec_url]

theorem foldl_updateRec_tierF (es : List Entry) (r : Rec) :
    (es.foldl updateRec r).tier = r.tier := by
  induction es generalizing r with
  | nil => rfl
  | cons s t ih => rw [List.foldl_cons, ih, updateRec_tier]

theorem foldl_updateRec_idem (es : List Entry) (r : Rec) :
    List.foldl updateRec (List.foldl updateRec r es) es = List.foldl updateRec r es := by
  have hSD1 := foldl_updateRec_SD es r
  have hSD2 := foldl_updateRec_SD es (List.foldl updateRec r es)
  rw [hSD1, foldSD_idem es (r.startDate, r.dates)] at hSD2
  have hLoc1 := foldl_updateRec_Loc es r
  have hLoc2 := foldl_updateRec_Loc es (List.foldl updateRec r es)
  rw [hLoc1, foldLoc_idem es (r.location, r.country)] at hLoc2
  apply recExt
  · rw [foldl_updateRec_id, foldl_updateRec_id]
  · rw [foldl_updateRec_nameF, foldl_updateRec_nameF]
  · have := congrArg Prod.snd hSD2
    simpa using this.trans (congrArg Prod.snd hSD1).symm
  · have := congrArg Prod.fst hSD2
    simpa using this.trans (congrArg Prod.fst hSD1).symm
  · have := congrArg Prod.fst hLoc2
    simpa using this.trans (congrArg Prod.fst hLoc1).symm
  · have := congrArg Prod.snd hLoc2
    simpa using this.trans (congrArg Prod.snd hLoc1).symm
  · rw [foldl_updateRec_disc, foldl_updateRec_disc]
    exact foldDisc_idem es r.disc
  · rw [foldl_updateRec_sid, foldl_updateRec_sid]
  · rw [foldl_updateRec_ssrnLinkF, foldl_updateRec_ssrnLinkF]
  · rw [foldl_updateRec_deadline, foldl_updateRec_deadline]
    exact foldD_idem es r.deadline
  · rw [foldl_updateRec_urlF, foldl_updateRec_urlF]
  · rw [foldl_updateRec_tierF, foldl_updateRec_tierF]

theorem newRec_startDate (n : Int) (s : Entry) :
    (newRec n s).startDate =
      (if s.conf_start ≠ "" then s.conf_start else (parse_conf_dates s.dates).1) := rfl

theorem newRec_dates_val (n : Int) (s : Entry) :
    (newRec n s).dates =
      (if (if s.conf_start ≠ "" then
            (match s.conf_display with
             | some d => d
             | none => (parse_conf_dates s.dates).2)
          else (parse_conf_dates s.dates).2) ≠ "" then
        (if s.conf_start ≠ "" then
          (match s.conf_display with
           | some d => d
           | none => (parse_conf_dates s.dates).2)
        else (parse_conf_dates s.dates).2)
      else s.dates) := rfl

theorem newRec_dates_ne (n : Int) (s : Entry) (h : s.dates ≠ "") :
    (newRec n s).dates ≠ "" := by
  rw [newRec_dates_val]
  by_cases hd : (if s.conf_start ≠ "" then
      (match s.conf_display with
       | some d => d
       | none => (parse_conf_dates s.dates).2)
      else (parse_conf_dates s.dates).2) ≠ ""
  · rw [if_pos hd]
    exact hd
  · rw [if_neg hd]
    exact h

theorem newRec_SD_fix (n : Int) (s : Entry) :
    updSD ((newRec n s).startDate, (newRec n s).dates) s =
      ((newRec n s).startDate, (newRec n s).dates) := by
  by_cases hcs : s.conf_start ≠ ""
  · by_cases hw : ((newRec n s).startDate = "" ∨ ends01 (newRec n s).startDate = true)
    · rw [updSD_cs_fire _ s hcs hw]
      have h1 : (newRec n s).startDate = s.conf_start := by
        rw [newRec_startDate, if_pos hcs]
      rw [h1]
      have h2 : dispOf s (newRec n s).dates = (newRec n s).dates := by
        cases hcd : s.conf_display with
        | none => simp [dispOf, hcd]
        | some d2 =>
          by_cases hd2 : d2 ≠ ""
          · have hdd : (newRec n s).dates = d2 := by
              rw [newRec_dates_val]
              simp only [hcd]
              rw [if_pos hcs, if_pos hd2]
            simp [dispOf, hcd, hd2, hdd]
          · simp only [dispOf, hcd]
            rw [if_neg hd2]
      rw [h2]
    · rw [updSD_cs_skip _ s hcs hw]
  · push_neg at hcs
    have hns : ¬(s.dates ≠ "" ∧ (newRec n s).dates = "") := by
      rintro ⟨hd, hdd⟩
      exact newRec_dates_ne n s hd hdd
    rw [updSD_elif_skip _ s hcs hns]

theorem newRec_fix (n : Int) (s : Entry) : updateRec (newRec n s) s = newRec n s := by
  apply recExt
  · exact updateRec_id _ s
  · exact updateRec_name _ s
  · rw [updateRec_dates]
    exact congrArg Prod.snd (newRec_SD_fix n s)
  · rw [updateRec_startDate]
    exact congrArg Prod.fst (newRec_SD_fix n s)
  · rw [updateRec_location]
    have h : ¬(s.location ≠ "" ∧ (newRec n s).location = "") := by
      rintro ⟨h1, h2⟩
      exact h1 h2
    exact congrArg Prod.fst (updLoc_skip _ s h)
  · rw [updateRec_country]
    have h : ¬(s.location ≠ "" ∧ (newRec n s).location = "") := by
      rintro ⟨h1, h2⟩
      exact h1 h2
    exact congrArg Prod.snd (updLoc_skip _ s h)
  · rw [updateRec_disc]
    exact updDisc_fix _ s (fun x hx => hx)
  · exact updateRec_sid _ s
  · exact updateRec_ssrnLink _ s
  · rw [updateRec_deadline]
    cases hd : s.deadline with
    | none => exact updDeadline_none _ s hd
    | some d =>
      have hnd : (newRec n s).deadline = d := by
        unfold newRec
        simp [hd]
      rw [updDeadline_some _ s d hd, hnd]
      by_cases hc : d ≠ "" ∧ (d = "" ∨ d = "TBD")
      · rw [if_pos hc]
      · rw [if_neg hc]
  · exact updateRec_url _ s
  · exact updateRec_tier _ s

/-! ## C1 groundwork: store-level structure -/

theorem newRec_sid (n : Int) (s : Entry) : (newRec n s).sid = s.sid := rfl

theorem updateLast_map_sid (x : String) (f : Rec → Rec) (hf : ∀ r, (f r).sid = r.sid)
    (st : List Rec) :
    (updateLast x f st).map (fun r => r.sid) = st.map (fun r => r.sid) := by
  induction st with
  | nil => rfl
  | cons r rs ih =>
    unfold updateLast
    by_cases h1 : hasSid rs x
    · simp only [h1, if_pos, List.map_cons]
      rw [ih]
    · by_cases h2 : r.sid == x <;> simp [h1, h2, hf r]

theorem hasSid_eq_any_map (st : List Rec) (y : String) :
    hasSid st y = (st.map (fun r => r.sid)).any (fun z => z == y) := by
  unfold hasSid
  induction st with
  | nil => rfl
  | cons r rs ih => simp [List.any_cons, ih]

theorem hasSid_congr (st st' : List Rec)
    (h : st.map (fun r => r.sid) = st'.map (fun r => r.sid)) (y : String) :
    hasSid st y = hasSid st' y := by
  rw [hasSid_eq_any_map, hasSid_eq_any_map, h]

theorem hasSid_append_right (st : List Rec) (r : Rec) (y : String) (h : r.sid = y) :
    hasSid (st ++ [r]) y = true := by
  unfold hasSid
  rw [List.any_append]
  simp [List.any_cons, h]

theorem hasSid_mono_append (st : List Rec) (l : List Rec) (y : String)
    (h : hasSid st y = true) : hasSid (st ++ l) y = true := by
  unfold hasSid at h ⊢
  rw [List.any_append, h]
  rfl

theorem mergeStep_preserves_hasSid (p : List Rec × Int) (s : Entry) (y : String)
    (h : hasSid p.1 y = true) : hasSid (mergeStep p s).1 y = true := by
  obtain ⟨st, n⟩ := p
  by_cases h0 : s.sid = ""
  · rw [mergeStep_skip (st, n) s h0]
    exact h
  · by_cases h1 : hasSid st s.sid
    · rw [mergeStep_update st n s h0 h1]
      have hm := updateLast_map_sid s.sid (fun r => updateRec r s)
        (fun r => updateRec_sid r s) st
      rw [hasSid_congr _ st hm]
      exact h
  
    · rw [mergeStep_new st n s h0 (by simpa using h1)]
      exact hasSid_mono_append st _ y h

theorem mergeStep_own_sid (st : List Rec) (n : Int) (s : Entry) (h0 : s.sid ≠ "") :
    hasSid (mergeStep (st, n) s).1 s.sid = true := by
  by_cases h1 : hasSid st s.sid
  · rw [mergeStep_update st n s h0 h1]
    have hm := updateLast_map_sid s.sid (fun r => updateRec r s)
      (fun r => updateRec_sid r s) st
    rw [hasSid_congr _ st hm]
    exact h1
  · rw [mergeStep_new st n s h0 (by simpa using h1)]
    exact hasSid_append_right st _ s.sid (newRec_sid n s)

theorem foldMerge_preserves_hasSid (b : List Entry) (p : List Rec × Int) (y : String)
    (h : hasSid p.1 y = true) : hasSid (b.foldl mergeStep p).1 y = true := by
  induction b generalizing p with
  | nil => exact h
  | cons s t ih => exact ih (mergeStep p s) (mergeStep_preserves_hasSid p s y h)

theorem merge_coverage (b : List Entry) (p : List Rec × Int) (s : Entry) (hs : s ∈ b)
    (h0 : s.sid ≠ "") : hasSid (b.foldl mergeStep p).1 s.sid = true := by
  induction b generalizing p with
  | nil => cases hs
  | cons s2 t ih =>
    rcases List.mem_cons.mp hs with h1 | h1
    · subst h1
      rw [List.foldl_cons]
      obtain ⟨st, n⟩ := p
      exact foldMerge_preserves_hasSid t _ s.sid (mergeStep_own_sid st n s h0)
    · exact ih (mergeStep p s2) h1

theorem merge_to_replay (b : List Entry) (st : List Rec) (n : Int)
    (hcov : ∀ s ∈ b, s.sid ≠ "" → hasSid st s.sid = true) :
    (b.foldl mergeStep (st, n)).1 = replayAll st b := by
  induction b generalizing st n with
  | nil => rfl
  | cons s t ih =>
    rw [List.foldl_cons]
    unfold replayAll
    rw [List.foldl_cons]
    by_cases h0 : s.sid = ""
    · rw [mergeStep_skip (st, n) s h0]
      have hrs : replayStep st s = st := by
        unfold replayStep
        rw [if_pos h0]
      rw [hrs]
      exact ih st n (fun s2 hs2 h2 => hcov s2 (List.mem_cons_of_mem s hs2) h2)
    · have h1 : hasSid st s.sid = true := hcov s (List.mem_cons_self s t) h0
      rw [mergeStep_update st n s h0 h1]
      have hrs : replayStep st s = updateLast s.sid (fun r => updateRec r s) st := by
        unfold replayStep
        rw [if_neg h0]
      rw [hrs]
      have hm := updateLast_map_sid s.sid (fun r => updateRec r s)
        (fun r => updateRec_sid r s) st
      exact ih _ n (fun s2 hs2 h2 => by
        rw [hasSid_congr _ st hm]
        exact hcov s2 (List.mem_cons_of_mem s hs2) h2)

theorem hasSid_true_mem (st : List Rec) (y : String) (h : hasSid st y = true) :
    ∃ r ∈ st, r.sid = y := by
  unfold hasSid at h
  obtain ⟨r, hr, hb⟩ := List.any_eq_true.mp h
  exact ⟨r, hr, by simpa using hb⟩

theorem hasSid_false_mem (st : List Rec) (y : String) (h : hasSid st y = false) :
    ∀ r ∈ st, r.sid ≠ y := by
  intro r hr hcon
  have : hasSid st y = true := by
    unfold hasSid
    exact List.any_eq_true.mpr ⟨r, hr, by simpa using hcon⟩
  rw [this] at h
  cases h

theorem sidUnique_iff (st : List Rec) :
    sidUnique st ↔
      List.Pairwise (fun a b : String => a = "" ∨ a ≠ b) (st.map (fun r => r.sid)) := by
  unfold sidUnique
  rw [List.pairwise_map]

theorem sidUnique_congr (st st' : List Rec)
    (h : st.map (fun r => r.sid) = st'.map (fun r => r.sid)) (hU : sidUnique st) :
    sidUnique st' := by
  rw [sidUnique_iff] at hU ⊢
  rw [← h]
  exact hU

theorem mergeStep_sidUnique (st : List Rec) (n : Int) (s : Entry) (hU : sidUnique st) :
    sidUnique (mergeStep (st, n) s).1 := by
  by_cases h0 : s.sid = ""
  · rw [mergeStep_skip (st, n) s h0]
    exact hU
  · by_cases h1 : hasSid st s.sid
    · rw [mergeStep_update st n s h0 h1]
      exact sidUnique_congr st _
        (updateLast_map_sid s.sid _ (fun r => updateRec_sid r s) st).symm hU
    · rw [mergeStep_new st n s h0 (by simpa using h1)]
      unfold sidUnique
      rw [List.pairwise_append]
      refine ⟨hU, List.pairwise_singleton _ _, ?_⟩
      intro a ha b hb
      have hb2 : b = newRec n s := List.mem_singleton.mp hb
      subst hb2
      rw [newRec_sid]
      by_cases ha0 : a.sid = ""
      · exact Or.inl ha0
      · refine Or.inr ?_
        exact hasSid_false_mem st s.sid (by simpa using h1) a ha

theorem foldMerge_sidUnique (b : List Entry) (st : List Rec) (n : Int) (hU : sidUnique st) :
    sidUnique ((b.foldl mergeStep (st, n)).1) := by
  induction b generalizing st n with
  | nil => exact hU
  | cons s t ih =>
    rw [List.foldl_cons]
    have h2 := mergeStep_sidUnique st n s hU
    have he : mergeStep (st, n) s = ((mergeStep (st, n) s).1, (mergeStep (st, n) s).2) := rfl
    rw [he]
    exact ih _ _ h2

theorem map_ifSid_id (x : String) (f : Rec → Rec) (l : List Rec)
    (h : ∀ r ∈ l, r.sid ≠ x) :
    l.map (fun r => if r.sid = x then f r else r) = l := by
  induction l with
  | nil => rfl
  | cons r rs ih =>
    rw [List.map_cons, if_neg (h r (List.mem_cons_self r rs))]
    rw [ih (fun r2 hr2 => h r2 (List.mem_cons_of_mem r hr2))]

theorem updateLast_eq_map (x : String) (f : Rec → Rec) (st : List Rec)
    (hx : x ≠ "") (hU : sidUnique st) :
    updateLast x f st = st.map (fun r => if r.sid = x then f r else r) := by
  induction st with
  | nil => rfl
  | cons r rs ih =>
    have hU2 : sidUnique rs := (List.pairwise_cons.mp hU).2
    have hr : ∀ b ∈ rs, r.sid = "" ∨ r.sid ≠ b.sid := (List.pairwise_cons.mp hU).1
    unfold updateLast
    by_cases h1 : hasSid rs x
    · obtain ⟨b, hb, hbs⟩ := hasSid_true_mem rs x h1
      have hrx : r.sid ≠ x := by
        rcases hr b hb with h0 | h0
        · rw [h0]
          exact fun hcon => hx hcon.symm
        · rw [← hbs]
          exact h0
      rw [if_pos h1, List.map_cons, if_neg hrx, ih hU2]
    · have hrs : ∀ b ∈ rs, b.sid ≠ x := hasSid_false_mem rs x (by simpa using h1)
      rw [if_neg h1, List.map_cons, map_ifSid_id x f rs hrs]
      by_cases h2 : r.sid = x
      · rw [if_pos h2]
        simp [h2]
      · rw [if_neg h2]
        simp [h2]

theorem entOf_cons_ne (b : List Entry) (S : String) (s : Entry) (h : s.sid ≠ S) :
    entOf (s :: b) S = entOf b S := by
  unfold entOf
  rw [List.filter_cons]
  simp [h]

theorem entOf_cons_eq (b : List Entry) (S : String) (s : Entry) (h : s.sid = S) :
    entOf (s :: b) S = s :: entOf b S := by
  unfold entOf
  rw [List.filter_cons]
  simp [h]

theorem replayAll_eq_map (b : List Entry) :
    ∀ st : List Rec, sidUnique st →
      replayAll st b =
        st.map (fun r =>
          if r.sid = "" then r else List.foldl updateRec r (entOf b r.sid)) := by
  induction b with
  | nil =>
    intro st _
    have h : ∀ r ∈ st,
        (if r.sid = "" then r else List.foldl updateRec r (entOf [] r.sid)) = r := by
      intro r _
      by_cases h0 : r.sid = "" <;> simp [h0, entOf]
    unfold replayAll
    rw [List.foldl_nil, List.map_congr_left h]
    simp
  | cons s t ih =>
    intro st hU
    unfold replayAll
    rw [List.foldl_cons]
    by_cases h0 : s.sid = ""
    · have hrs : replayStep st s = st := by
        unfold replayStep
        rw [if_pos h0]
      rw [hrs]
      have := ih st hU
      unfold replayAll at this
      rw [this]
      apply List.map_congr_left
      intro r _
      by_cases hr0 : r.sid = ""
      · rw [if_pos hr0, if_pos hr0]
      · rw [if_neg hr0, if_neg hr0,
          entOf_cons_ne t r.sid s (fun hcon => hr0 (by rw [← hcon, h0]))]
    · have hrs : replayStep st s =
          st.map (fun r => if r.sid = s.sid then updateRec r s else r) := by
        unfold replayStep
        rw [if_neg h0]
        exact updateLast_eq_map s.sid _ st h0 hU
      rw [hrs]
      have hsids : (st.map (fun r => if r.sid = s.sid then updateRec r s else r)).map
          (fun r => r.sid) = st.map (fun r => r.sid) := by
        rw [List.map_map]
        apply List.map_congr_left
        intro r _
        by_cases hr1 : r.sid = s.sid
        · simp [hr1, updateRec_sid]
        · simp [hr1]
      have hU2 : sidUnique (st.map (fun r => if r.sid = s.sid then updateRec r s else r)) :=
        sidUnique_congr st _ hsids.symm hU
      have := ih _ hU2
      unfold replayAll at this
      rw [this, List.map_map]
      apply List.map_congr_left
      intro r hr
      simp only [Function.comp_apply]
      by_cases hr0 : r.sid = ""
      · have hrs2 : r.sid ≠ s.sid := by
          rw [hr0]
          exact fun hcon => h0 hcon.symm
        rw [if_neg hrs2, if_pos hr0, if_pos hr0]
      · by_cases hr1 : r.sid = s.sid
        · rw [if_pos hr1]
          have hsid2 : (updateRec r s).sid = r.sid := updateRec_sid r s
          rw [if_neg (by rw [hsid2]; exact hr0), hsid2, if_neg hr0]
          rw [entOf_cons_eq t r.sid s hr1.symm]
          rw [List.foldl_cons]
        · rw [if_neg hr1, if_neg hr0, if_neg hr0,
            entOf_cons_ne t r.sid s (fun hcon => hr1 hcon.symm)]

theorem merge_mem_form (b : List Entry) :
    ∀ (st : List Rec) (n : Int), sidUnique st →
      ∀ r ∈ (b.foldl mergeStep (st, n)).1, r.sid ≠ "" →
        ∃ r₀ : Rec, r₀.sid = r.sid ∧
          r = List.foldl updateRec r₀ (entOf b r.sid) ∧
          (r₀ ∈ st ∨ hasSid st r.sid = false) := by
  induction b with
  | nil =>
    intro st n _ r hr _
    exact ⟨r, rfl, by simp [entOf], Or.inl hr⟩
  | cons s t ih =>
    intro st n hU r hr hr0
    rw [List.foldl_cons] at hr
    by_cases h0 : s.sid = ""
    · rw [mergeStep_skip (st, n) s h0] at hr
      obtain ⟨r₀, h1, h2, h3⟩ := ih st n hU r hr hr0
      refine ⟨r₀, h1, ?_, h3⟩
      rw [entOf_cons_ne t r.sid s (fun hcon => hr0 (hcon.symm.trans h0))]
      exact h2
    · by_cases h1 : hasSid st s.sid
      · rw [mergeStep_update st n s h0 h1] at hr
        have hsids : (updateLast s.sid (fun r2 => updateRec r2 s) st).map (fun r2 => r2.sid) =
            st.map (fun r2 => r2.sid) :=
          updateLast_map_sid s.sid _ (fun r2 => updateRec_sid r2 s) st
        have hU2 : sidUnique (updateLast s.sid (fun r2 => updateRec r2 s) st) :=
          sidUnique_congr st _ hsids.symm hU
        obtain ⟨r₀, hs1, hs2, hs3⟩ := ih _ n hU2 r hr hr0
        have hmap : updateLast s.sid (fun r2 => updateRec r2 s) st =
            st.map (fun r2 => if r2.sid = s.sid then updateRec r2 s else r2) :=
          updateLast_eq_map s.sid _ st h0 hU
        by_cases hreq : r.sid = s.sid
        · rcases hs3 with hmem | hfalse
          · rw [hmap] at hmem
            obtain ⟨w, hw, hweq⟩ := List.mem_map.mp hmem
            by_cases hws : w.sid = s.sid
            · rw [if_pos hws] at hweq
              have hwsid : w.sid = r.sid := by
                rw [← hs1, ← hweq, updateRec_sid]
              refine ⟨w, hwsid, ?_, Or.inl hw⟩
              rw [entOf_cons_eq t r.sid s hreq.symm, List.foldl_cons, hweq]
              exact hs2
            · rw [if_neg hws] at hweq
              exfalso
              apply hws
              rw [hweq, hs1]
              exact hreq
          · exfalso
            have hc : hasSid (updateLast s.sid (fun r2 => updateRec r2 s) st) r.sid =
                hasSid st r.sid := hasSid_congr _ st hsids r.sid
            rw [hc, hreq, h1] at hfalse
            cases hfalse
        · rcases hs3 with hmem | hfalse
          · rw [hmap] at hmem
            obtain ⟨w, hw, hweq⟩ := List.mem_map.mp hmem
            by_cases hws : w.sid = s.sid
            · exfalso
              rw [if_pos hws] at hweq
              apply hreq
              rw [← hs1, ← hweq, updateRec_sid]
              exact hws
            · rw [if_neg hws] at hweq
              refine ⟨r₀, hs1, ?_, Or.inl (hweq ▸ hw)⟩
              rw [entOf_cons_ne t r.sid s (fun hcon => hreq hcon.symm)]
              exact hs2
          · refine ⟨r₀, hs1, ?_, Or.inr ?_⟩
            · rw [entOf_cons_ne t r.sid s (fun hcon => hreq hcon.symm)]
              exact hs2
            · have hc : hasSid (updateLast s.sid (fun r2 => updateRec r2 s) st) r.sid =
                  hasSid st r.sid := hasSid_congr _ st hsids r.sid
              rw [← hc]
              exact hfalse
      · have h1f : hasSid st s.sid = false := by simpa using h1
        rw [mergeStep_new st n s h0 h1f] at hr
        have hU2 : sidUnique (st ++ [newRec n s]) := by
          have h2 := mergeStep_sidUnique st n s hU
          rw [mergeStep_new st n s h0 h1f] at h2
          exact h2
        obtain ⟨r₀, hs1, hs2, hs3⟩ := ih _ (n + 1) hU2 r hr hr0
        by_cases hreq : r.sid = s.sid
        · rcases hs3 with hmem | hfalse
          · rcases List.mem_append.mp hmem with hmem2 | hmem2
            · exfalso
              have hc : hasSid st s.sid = true := by
                unfold hasSid
                refine List.any_eq_true.mpr ⟨r₀, hmem2, ?_⟩
                simp [hs1, hreq]
              rw [hc] at h1f
              cases h1f
            · have hr₀ : r₀ = newRec n s := List.mem_singleton.mp hmem2
              subst hr₀
              refine ⟨newRec n s, hs1, ?_, Or.inr (hreq ▸ h1f)⟩
              rw [entOf_cons_eq t r.sid s hreq.symm, List.foldl_cons, newRec_fix]
              exact hs2
          · exfalso
            have hc : hasSid (st ++ [newRec n s]) r.sid = true :=
              hasSid_append_right st _ r.sid ((newRec_sid n s).trans hreq.symm)
            rw [hc] at hfalse
            cases hfalse
        · rcases hs3 with hmem | hfalse
          · rcases List.mem_append.mp hmem with hmem2 | hmem2
            · refine ⟨r₀, hs1, ?_, Or.inl hmem2⟩
              rw [entOf_cons_ne t r.sid s (fun hcon => hreq hcon.symm)]
              exact hs2
            · exfalso
              have hr₀ : r₀ = newRec n s := List.mem_singleton.mp hmem2
              apply hreq
              rw [← hs1, hr₀, newRec_sid]
          · refine ⟨r₀, hs1, ?_, Or.inr ?_⟩
            · rw [entOf_cons_ne t r.sid s (fun hcon => hreq hcon.symm)]
              exact hs2
            · by_cases hst : hasSid st r.sid = true
              · exfalso
                rw [hasSid_mono_append st [newRec n s] r.sid hst] at hfalse
                cases hfalse
              · simpa using hst

/-! ## C1: idempotence of the merge -/

/-- C1.  For every store whose records satisfy the data-model invariant
that `sid` is unique among records that have one, and every batch of
scraped entries, re-applying the identical batch to the already-merged
store produces no further change: merging is idempotent record for
record. -/
theorem C1_merge_idempotent (st : List Rec) (b : List Entry) (hU : sidUnique st) :
    merge_scraped_into_existing (merge_scraped_into_existing st b) b =
      merge_scraped_into_existing st b := by
  have hUM : sidUnique (merge_scraped_into_existing st b) :=
    foldMerge_sidUnique b st (maxId st + 1) hU
  have hcov : ∀ s ∈ b, s.sid ≠ "" →
      hasSid (merge_scraped_into_existing st b) s.sid = true :=
    fun s hs h0 => merge_coverage b (st, maxId st + 1) s hs h0
  have h1 : merge_scraped_into_existing (merge_scraped_into_existing st b) b =
      replayAll (merge_scraped_into_existing st b) b :=
    merge_to_replay b (merge_scraped_into_existing st b)
      (maxId (merge_scraped_into_existing st b) + 1) hcov
  rw [h1, replayAll_eq_map b _ hUM]
  have hpt : ∀ r ∈ merge_scraped_into_existing st b,
      (if r.sid = "" then r else List.foldl updateRec r (entOf b r.sid)) = r := by
    intro r hr
    by_cases h0 : r.sid = ""
    · rw [if_pos h0]
    · rw [if_neg h0]
      obtain ⟨r₀, _, hs2, _⟩ := merge_mem_form b st (maxId st + 1) hU r hr h0
      nth_rewrite 1 [hs2]
      rw [foldl_updateRec_idem]
      exact hs2.symm
  rw [List.map_congr_left hpt]
  simp

/-- C1 witness: idempotence applied to a concrete store (one record,
unique sids) and a concrete two-entry batch (one update carrying a
deadline and a location, one fresh sid). -/
theorem C1_merge_idempotent_witness :
    merge_scraped_into_existing
        (merge_scraped_into_existing
          [Rec.mk 1 "Old Conf" "" "" "" "Unknown" ["fin"] "7" "u7" "TBD" "" ""]
          [Entry.mk "Old Conf" "" "Paris, France" "Finance" "7" "u7" (some "2026-05-01") "" none,
           Entry.mk "New Conf" "10 May 2026" "" "Economics" "8" "u8" none "" none])
        [Entry.mk "Old Conf" "" "Paris, France" "Finance" "7" "u7" (some "2026-05-01") "" none,
         Entry.mk "New Conf" "10 May 2026" "" "Economics" "8" "u8" none "" none] =
      merge_scraped_into_existing
        [Rec.mk 1 "Old Conf" "" "" "" "Unknown" ["fin"] "7" "u7" "TBD" "" ""]
        [Entry.mk "Old Conf" "" "Paris, France" "Finance" "7" "u7" (some "2026-05-01") "" none,
         Entry.mk "New Conf" "10 May 2026" "" "Economics" "8" "u8" none "" none] :=
  C1_merge_idempotent
    [Rec.mk 1 "Old Conf" "" "" "" "Unknown" ["fin"] "7" "u7" "TBD" "" ""]
    [Entry.mk "Old Conf" "" "Paris, France" "Finance" "7" "u7" (some "2026-05-01") "" none,
     Entry.mk "New Conf" "10 May 2026" "" "Economics" "8" "u8" none "" none]
    (by unfold sidUnique; exact List.pairwise_singleton _ _)
